import Mathlib

/-!
# Source map engine: mapping container, binary merge and emitters

A shallow embedding of `src/SourceMap.cpp` (the binding methods
`addRawMappings`, `addBufferMappings`, `stringify`, `toBuffer`, `getMap`,
`_addNames`, `_addSources`) over the container declared in
`src/MappingContainer.h`.

Conventions of the embedding.

* A C++ `int` is 32 bits wide. Its values are carried by `Int`, and every `int`
  sum of `SourceMap.cpp` (lines 92 and 106 to 111) is `intAdd`, which wraps in
  two's complement as the compiled code does.
* `std::vector<MappingLine *>` is a `List MappingLine`; a line object is
  identified by its index in the vector (lines are only ever pushed at the
  back, never moved), so a pointer held across calls is an index.
* An out-of-range vector access has no defined result; the operations that can
  perform one return `Option` and yield `none` there.
* The flat binary buffer is represented by its logical content
  (`SourceMapSchema.Map`), the value `SourceMapSchema::GetMap` reads back.
* `std::unordered_map<std::string, int>` indices of the pools are represented
  by the position of the string in the pool vector.
-/

namespace SourceMap

/-! ## Data model -/

/-- A line and column pair; minus one marks an absent coordinate. -/
structure Position where
  line : Int
  column : Int
deriving DecidableEq, Repr

/-- One mapping record (a segment). -/
structure Mapping where
  generated : Position
  original : Position
  source : Int
  name : Int
deriving DecidableEq, Repr

/-- The per-line segment store with its sorted flag and column watermark. -/
structure MappingLine where
  lineNumber : Int
  segments : List Mapping
  isSorted : Bool
  lastColumn : Int
deriving DecidableEq, Repr

/-- The private state of `MappingContainer` (MappingContainer.h lines 59 to 67). -/
structure MappingContainer where
  sources : List String
  names : List String
  mapping_lines : List MappingLine
  generated_columns : Int
  generated_lines : Int
  segment_count : Int
deriving DecidableEq, Repr

/-- Values of a host array as the binding sees them: a string or anything else. -/
inductive NapiValue where
  | string (s : String)
  | other
deriving DecidableEq, Repr

namespace SourceMapSchema

/-- The `Mapping` struct of the binary schema, fields in constructor order
(SourceMap.cpp lines 198 to 199). -/
structure Mapping where
  generatedLine : Int
  generatedColumn : Int
  originalLine : Int
  originalColumn : Int
  source : Int
  name : Int
deriving DecidableEq, Repr

/-- The `MappingLine` table of the binary schema (SourceMap.cpp lines 202 to 203). -/
structure MappingLine where
  lineNumber : Int
  isSorted : Bool
  segments : List Mapping
deriving DecidableEq, Repr

/-- The root `Map` table of the binary schema (SourceMap.cpp lines 206 to 207). -/
structure Map where
  names : List String
  sources : List String
  lineCount : Int
  lines : List MappingLine
deriving DecidableEq, Repr

end SourceMapSchema

/-! ## C++ `int` arithmetic -/

/-- The integers a 32-bit C++ `int` holds. -/
def inInt32 (x : Int) : Prop := -2147483648 ≤ x ∧ x ≤ 2147483647

instance inInt32.decidable (x : Int) : Decidable (inInt32 x) :=
  inferInstanceAs (Decidable (-2147483648 ≤ x ∧ x ≤ 2147483647))

/-- Two's-complement wrap of an integer into the range of `int`. -/
def wrapInt32 (x : Int) : Int := (x + 2147483648) % 4294967296 - 2147483648

/-- The sum `a + b` of two `int` values as the compiled code computes it: the
exact sum wrapped into the range of `int`. An integer outside that range is
the value of no `int` expression; the containers of the embedding are not
restricted to the range, and on such an operand the sum is left exact. -/
def intAdd (a b : Int) : Int :=
  if inInt32 a ∧ inInt32 b then wrapInt32 (a + b) else a + b

/-! ## MappingLine -/

/-- Order of two segments by generated column. -/
def colLE (a b : Mapping) : Prop := a.generated.column ≤ b.generated.column

instance colLE.decidable : DecidableRel colLE :=
  fun a b => Int.decLe a.generated.column b.generated.column

instance colLE.total : IsTotal Mapping colLE := ⟨fun _ _ => Int.le_total _ _⟩

instance colLE.trans : IsTrans Mapping colLE := ⟨fun _ _ _ h₁ h₂ => Int.le_trans h₁ h₂⟩

namespace MappingLine

/-- Modelled from the spec: the `MappingLine` constructor (MappingLine.h is not
among the sources). A fresh line is empty; its flag starts set, since
`append` only ever clears the flag (section 4.2) and section 4.6 relies on
already-sorted input keeping it; the column watermark starts at zero. -/
def new (lineNumber : Int) : MappingLine :=
  { lineNumber := lineNumber, segments := [], isSorted := true, lastColumn := 0 }

/-- Modelled from the spec: `MappingLine::addMapping` (section 4.2 `append`):
pushes; updates `last_column`, the maximum generated column seen on the line
(section 3); clears `sorted` if the new column is less than the previous
`last_column`. -/
def addMapping (l : MappingLine) (m : Mapping) : MappingLine :=
  { l with
    segments := l.segments ++ [m]
    isSorted := l.isSorted && !(decide (m.generated.column < l.lastColumn))
    lastColumn := max l.lastColumn m.generated.column }

/-- Modelled from the spec: `MappingLine::setIsSorted` (section 4.2
`set_sorted`), the trusted marker. -/
def setIsSorted (l : MappingLine) (value : Bool) : MappingLine :=
  { l with isSorted := value }

/-- Modelled from the spec: `MappingLine::sort` (section 4.2): a no-op when the
flag is set; otherwise a stable sort by generated column, ascending, which
sets the flag. Insertion of each segment in front of the first later segment
with a column at least as large keeps equal columns in insertion order. -/
def sort (l : MappingLine) : MappingLine :=
  if l.isSorted then l
  else { l with segments := l.segments.insertionSort colLE, isSorted := true }

end MappingLine

/-! ## MappingContainer -/

/-- Applies `f` to the element at index `i`, leaving shorter lists unchanged. -/
def modifyAt (f : MappingLine → MappingLine) : List MappingLine → Nat → List MappingLine
  | [], _ => []
  | l :: ls, 0 => f l :: ls
  | l :: ls, i + 1 => l :: modifyAt f ls i

namespace MappingContainer

/-- The container right after construction (MappingContainer.h lines 65 to 67). -/
def empty : MappingContainer :=
  { sources := [], names := [], mapping_lines := [],
    generated_columns := 0, generated_lines := -1, segment_count := 0 }

/-- The segments stored on line `i`, empty when the line does not exist. -/
def segsAt (c : MappingContainer) (i : Nat) : List Mapping :=
  match c.mapping_lines[i]? with
  | some l => l.segments
  | none => []

/-- The sorted flag of line `i`, when the line exists. -/
def sortedAt (c : MappingContainer) (i : Nat) : Option Bool :=
  c.mapping_lines[i]?.map (fun l => l.isSorted)

/-- The line object at index `i`, or the fresh line `createLinesIfUndefined`
would put there when the vector is shorter. -/
def lineAt (c : MappingContainer) (i : Nat) : MappingLine :=
  match c.mapping_lines[i]? with
  | some l => l
  | none => MappingLine.new i

/-- Modelled from the spec: `MappingContainer::createLinesIfUndefined`
(section 4.3): extends `lines` with empty lines so that indices `0..n` exist,
each new line numbered by its index, and updates `generated_lines` eagerly. -/
def createLinesIfUndefined (c : MappingContainer) (generatedLine : Int) : MappingContainer :=
  { c with
    mapping_lines := c.mapping_lines ++
      (List.range (generatedLine + 1 - c.mapping_lines.length).toNat).map
        (fun k => MappingLine.new ((c.mapping_lines.length + k : Nat) : Int))
    generated_lines := max c.generated_lines generatedLine }

/-- Modelled from the spec: `MappingContainer::addMapping` (section 4.3
`add_mapping`, steps 1 to 4). The target line is `lines[generated.line]`; a
negative line has no entry to append to, so the result is `none`. -/
def addMapping (c : MappingContainer) (generated original : Position) (source name : Int) :
    Option MappingContainer :=
  if generated.line < 0 then none
  else
    let c1 := c.createLinesIfUndefined generated.line
    some { c1 with
      generated_columns := max c1.generated_columns generated.column
      mapping_lines := modifyAt
        (fun l => l.addMapping ⟨generated, original, source, name⟩)
        c1.mapping_lines generated.line.toNat
      segment_count := c1.segment_count + 1 }

/-- Modelled from the spec: `MappingContainer::getSourcesCount`, the `count()`
of the sources pool (section 4.8). -/
def getSourcesCount (c : MappingContainer) : Int := c.sources.length

/-- Modelled from the spec: `MappingContainer::getNamesCount`, the `count()`
of the names pool (section 4.8). -/
def getNamesCount (c : MappingContainer) : Int := c.names.length

/-- Modelled from the spec: `StringPool::index_of` (section 4.8): the stored
index or minus one. -/
def poolIndex (pool : List String) (s : String) : Int :=
  if s ∈ pool then (pool.indexOf s : Int) else -1

/-- Modelled from the spec: `StringPool::add` (section 4.8): if `s` is present,
its existing index; otherwise `s` is appended and the new index returned. -/
def poolAdd (pool : List String) (s : String) : List String × Int :=
  if poolIndex pool s < 0 then (pool ++ [s], (pool.length : Int))
  else (pool, poolIndex pool s)

/-- Modelled from the spec: `MappingContainer::getSourceIndex`, `index_of` on
the sources pool (section 4.8). -/
def getSourceIndex (c : MappingContainer) (source : String) : Int :=
  poolIndex c.sources source

/-- Modelled from the spec: `MappingContainer::getNameIndex`, `index_of` on
the names pool (section 4.8). -/
def getNameIndex (c : MappingContainer) (name : String) : Int :=
  poolIndex c.names name

/-- Modelled from the spec: `MappingContainer::addSource`, `add` on the sources
pool (section 4.8), returning the index. -/
def addSource (c : MappingContainer) (source : String) : MappingContainer × Int :=
  ({ c with sources := (poolAdd c.sources source).1 }, (poolAdd c.sources source).2)

/-- Modelled from the spec: `MappingContainer::addName`, `add` on the names
pool (section 4.8), returning the index. -/
def addName (c : MappingContainer) (name : String) : MappingContainer × Int :=
  ({ c with names := (poolAdd c.names name).1 }, (poolAdd c.names name).2)

/-- Modelled from the spec: `MappingContainer::sort` (section 4.6): calls
`MappingLine::sort` on every line. -/
def sort (c : MappingContainer) : MappingContainer :=
  { c with mapping_lines := c.mapping_lines.map MappingLine.sort }

/-- Sets the flag of the line object at index `i` (a `setIsSorted` call through
a line pointer). -/
def setLineSorted (c : MappingContainer) (i : Nat) (value : Bool) : MappingContainer :=
  { c with mapping_lines := modifyAt (fun l => l.setIsSorted value) c.mapping_lines i }

end MappingContainer

/-! ## Base64 VLQ codec (spec section 4.1) -/

/-- The base64 alphabet `A-Z a-z 0-9 + /`, values 0 to 63. -/
def base64Alphabet : List Char :=
  "ABCDEFGHIJKLMNOPQRSTUVWXYZabcdefghijklmnopqrstuvwxyz0123456789+/".toList

/-- The character of a 6-bit value. -/
def base64Char (n : Nat) : Char := base64Alphabet.getD n 'A'

/-- The 6-bit value of a character, `none` outside the alphabet. -/
def base64Value (c : Char) : Option Nat :=
  if c ∈ base64Alphabet then some (base64Alphabet.indexOf c) else none

/-- Little-endian 5-bit groups of `n`, continuation bit (32) on all but the
last; `fuel` bounds the number of groups after the first. -/
def encodeGroups : Nat → Nat → List Char
  | 0, n => [base64Char (n % 32)]
  | fuel + 1, n =>
    if n / 32 = 0 then [base64Char (n % 32)]
    else base64Char (n % 32 + 32) :: encodeGroups fuel (n / 32)

/-- Modelled from the spec: `encode` (section 4.1): the signed value is doubled
(doubled then or-ed with 1 if negative) and emitted in little-endian 5-bit
groups with the continuation bit set on all but the last. -/
def encodeVlq (v : Int) : List Char :=
  let n : Nat := if v < 0 then 2 * v.natAbs + 1 else 2 * v.natAbs
  encodeGroups n n

/-- The signed value of a finished group accumulator: bit 0 is the sign, the
rest the magnitude; a set sign with zero magnitude is `0`. -/
def vlqSigned (value : Nat) : Int :=
  if value % 2 = 1 then -((value / 2 : Nat) : Int) else ((value / 2 : Nat) : Int)

/-- Modelled from the spec: `decode` (section 4.1) on one segment token:
accumulates 5-bit payloads shifted by `5 k`, finishes a value when the
continuation bit is clear. `none` is a decode error: a character outside the
alphabet, or a group left open at the end of the token. -/
def decodeVlq : List Char → Nat → Nat → Option (List Int)
  | [], _, shift => if shift = 0 then some [] else none
  | c :: cs, value, shift =>
    match base64Value c with
    | none => none
    | some d =>
      if 32 ≤ d then decodeVlq cs (value + (d % 32) * 2 ^ shift) (shift + 5)
      else (decodeVlq cs 0 0).map (fun vs => vlqSigned (value + (d % 32) * 2 ^ shift) :: vs)

/-! ## VLQ parsing and merge (spec section 4.4) -/

/-- Splits at every occurrence of `sep`; the pieces between separators, empty
ones included. -/
def splitChar (sep : Char) : List Char → List (List Char)
  | [] => [[]]
  | c :: cs =>
    if c = sep then [] :: splitChar sep cs
    else
      match splitChar sep cs with
      | [] => [[c]]
      | t :: ts => (c :: t) :: ts

/-- The running cursor of the parse: generated line and column, and the four
coordinates that persist across lines. -/
structure VlqCursor where
  genLine : Int
  genCol : Int
  srcIdx : Int
  origLine : Int
  origCol : Int
  nameIdx : Int
deriving DecidableEq, Repr

/-- What the parse does to the container, in order: a segment handed to
`add_mapping`, or a line reached by a `;`. -/
inductive VlqEvent where
  | segment (generated original : Position) (source name : Int)
  | line (generatedLine : Int)
deriving DecidableEq, Repr

/-- Adds the decoded fields of one segment token to the cursor: field 1 to the
generated column, fields 2 to 4 to source index, original line and original
column, field 5 to the name index. -/
def advanceCursor (cur : VlqCursor) : List Int → VlqCursor
  | [] => cur
  | [a] => { cur with genCol := cur.genCol + a }
  | [a, b] => { cur with genCol := cur.genCol + a, srcIdx := cur.srcIdx + b }
  | [a, b, c] =>
    { cur with genCol := cur.genCol + a, srcIdx := cur.srcIdx + b,
               origLine := cur.origLine + c }
  | [a, b, c, d] =>
    { cur with genCol := cur.genCol + a, srcIdx := cur.srcIdx + b,
               origLine := cur.origLine + c, origCol := cur.origCol + d }
  | a :: b :: c :: d :: e :: _ =>
    { cur with genCol := cur.genCol + a, srcIdx := cur.srcIdx + b,
               origLine := cur.origLine + c, origCol := cur.origCol + d,
               nameIdx := cur.nameIdx + e }

/-- The `add_mapping` call of a segment with `n` decoded fields at the advanced
cursor: nothing for an empty token; generated position only below four fields;
source and original position from four fields on; the name with five. -/
def emitEvent (cur : VlqCursor) (n : Nat) : List VlqEvent :=
  if n = 0 then []
  else if n < 4 then [.segment ⟨cur.genLine, cur.genCol⟩ ⟨-1, -1⟩ (-1) (-1)]
  else if n = 4 then
    [.segment ⟨cur.genLine, cur.genCol⟩ ⟨cur.origLine, cur.origCol⟩ cur.srcIdx (-1)]
  else [.segment ⟨cur.genLine, cur.genCol⟩ ⟨cur.origLine, cur.origCol⟩ cur.srcIdx cur.nameIdx]

/-- Parses the comma-separated tokens of one line. The result is the cursor, the
events so far, and whether a decode error stopped the parse. -/
def parseTokens (cur : VlqCursor) : List (List Char) → VlqCursor × List VlqEvent × Bool
  | [] => (cur, [], false)
  | t :: ts =>
    match decodeVlq t 0 0 with
    | none => (cur, [], true)
    | some vs =>
      let cur1 := advanceCursor cur vs
      let r := parseTokens cur1 ts
      (r.1, emitEvent cur1 vs.length ++ r.2.1, r.2.2)

/-- Parses the lines after the first: every `;` increments the generated line
and resets the generated column to the column offset. -/
def parseLines (columnOffset : Int) (cur : VlqCursor) :
    List (List Char) → List VlqEvent × Bool
  | [] => ([], false)
  | l :: ls =>
    let cur0 := { cur with genLine := cur.genLine + 1, genCol := columnOffset }
    let r := parseTokens cur0 (splitChar ',' l)
    if r.2.2 then (.line cur0.genLine :: r.2.1, true)
    else
      let rest := parseLines columnOffset r.1 ls
      (.line cur0.genLine :: r.2.1 ++ rest.1, rest.2)

/-- Modelled from the spec: the parse of `add_vlq_mappings` (section 4.4): lines
separated by `;`, segments by `,`; `gen_line` starts at the line offset,
`gen_col` at the column offset on every line, original line and column at 0,
source and name index at their offsets. -/
def parseMappings (text : List Char) (lineOffset columnOffset sourcesOffset namesOffset : Int) :
    List VlqEvent × Bool :=
  let cur : VlqCursor := ⟨lineOffset, columnOffset, sourcesOffset, 0, 0, namesOffset⟩
  match splitChar ';' text with
  | [] => ([], false)
  | l :: ls =>
    let r := parseTokens cur (splitChar ',' l)
    if r.2.2 then (r.2.1, true)
    else
      let rest := parseLines columnOffset r.1 ls
      (r.2.1 ++ rest.1, rest.2)

/-- How a merge ends: normally, by a decode error that leaves the segments
already added in place (section 7), or at an access outside the line vector. -/
inductive MergeResult where
  | ok (c : MappingContainer)
  | decodeError (c : MappingContainer)
  | outOfRange
deriving DecidableEq, Repr

namespace MappingContainer

/-- Applies one parse event: `add_mapping` for a segment, line creation for a
line reached by `;` (section 8: `";;"` gives three empty lines). -/
def applyEvent (c : MappingContainer) : VlqEvent → Option MappingContainer
  | .segment generated original source name => c.addMapping generated original source name
  | .line n => some (c.createLinesIfUndefined n)

/-- Modelled from the spec: `MappingContainer::addVLQMappings` (section 4.4):
every parsed segment is emitted via `add_mapping`, in document order. -/
def addVLQMappings (c : MappingContainer) (mappings_input : String)
    (line_offset column_offset sources_offset names_offset : Int) : MergeResult :=
  let r := parseMappings mappings_input.toList line_offset column_offset
    sources_offset names_offset
  match r.1.foldlM applyEvent c with
  | none => .outOfRange
  | some c1 => if r.2 then .decodeError c1 else .ok c1

end MappingContainer

/-! ## VLQ emission (spec section 4.5) -/

/-- The four cursors that persist across lines during emission. -/
structure EmitCursor where
  source : Int
  originalLine : Int
  originalColumn : Int
  name : Int
deriving DecidableEq, Repr

/-- One segment as 1, 4 or 5 VLQs of the deltas from the cursor, and the
advanced cursor: generated column only for a segment without source; four
fields with a source and no name; five with both. An index is present when it
is above minus one, the test `getMap` and `addBufferMappings` apply
(SourceMap.cpp lines 110, 111, 258, 268). -/
def emitSegment (previousColumn : Int) (cur : EmitCursor) (m : Mapping) :
    List Char × EmitCursor :=
  let col := encodeVlq (m.generated.column - previousColumn)
  if m.source > -1 then
    let four := col ++ encodeVlq (m.source - cur.source)
      ++ encodeVlq (m.original.line - cur.originalLine)
      ++ encodeVlq (m.original.column - cur.originalColumn)
    let cur1 : EmitCursor :=
      { cur with source := m.source, originalLine := m.original.line,
                 originalColumn := m.original.column }
    if m.name > -1 then (four ++ encodeVlq (m.name - cur.name), { cur1 with name := m.name })
    else (four, cur1)
  else (col, cur)

/-- The segments of one line, separated by commas; the generated column
restarts at 0 on every line. -/
def emitSegments (previousColumn : Int) (cur : EmitCursor) (first : Bool) :
    List Mapping → List Char × EmitCursor
  | [] => ([], cur)
  | m :: ms =>
    let r := emitSegment previousColumn cur m
    let rest := emitSegments m.generated.column r.2 false ms
    ((if first then [] else [',']) ++ r.1 ++ rest.1, rest.2)

/-- The lines, one `;` per new line and none leading. -/
def emitLines (cur : EmitCursor) (first : Bool) : List (List Mapping) → List Char
  | [] => []
  | l :: ls =>
    let r := emitSegments 0 cur true l
    (if first then [] else [';']) ++ r.1 ++ emitLines r.2 false ls

namespace MappingContainer

/-- Modelled from the spec: `MappingContainer::toVLQMappings` (section 4.5): for
each line index `0..generated_lines`, the segments as stored (the caller sorts
first). -/
def toVLQMappings (c : MappingContainer) : String :=
  String.mk (emitLines ⟨0, 0, 0, 0⟩ true
    ((List.range (c.generated_lines + 1).toNat).map c.segsAt))

end MappingContainer

/-! ## The binding: `SourceMapBinding` (SourceMap.cpp) -/

namespace SourceMapBinding

/-- Helper `SourceMapBinding::_addNames` (SourceMap.cpp lines 346 to 360): the
container after the loop and the indices pushed to `insertions`. -/
def _addNames (c : MappingContainer) : List NapiValue → MappingContainer × List Int
  | [] => (c, [])
  | name :: rest =>
    let r := match name with
      | .other => c.addName ""
      | .string s => c.addName s
    let t := _addNames r.1 rest
    (t.1, r.2 :: t.2)

/-- Helper `SourceMapBinding::_addSources` (SourceMap.cpp lines 380 to 394): the
container after the loop and the indices pushed to `insertions`. The branch
for a non-string entry calls `addName` (line 388). -/
def _addSources (c : MappingContainer) : List NapiValue → MappingContainer × List Int
  | [] => (c, [])
  | source :: rest =>
    let r := match source with
      | .other => c.addName ""
      | .string s => c.addSource s
    let t := _addSources r.1 rest
    (t.1, r.2 :: t.2)

/-- Method `SourceMapBinding::addRawMappings` (SourceMap.cpp lines 47 to 57): the
VLQ merge with the current pool counts as offsets, then `_addNames`, then
`_addSources`; a merge that fails does not reach the pools. -/
def addRawMappings (c : MappingContainer) (rawMappings : String)
    (sources names : List NapiValue) (lineOffset columnOffset : Int) : MergeResult :=
  match c.addVLQMappings rawMappings lineOffset columnOffset
      c.getSourcesCount c.getNamesCount with
  | .ok c1 => .ok (_addSources (_addNames c1 names).1 sources).1
  | .decodeError c1 => .decodeError c1
  | .outOfRange => .outOfRange

/-- The arguments of the `addMapping` call in the segment loop of
`addBufferMappings` (SourceMap.cpp lines 106 to 111), as one segment; the four
sums are `int` sums. -/
def mergedSegment (lineOffset columnOffset sources names : Int)
    (seg : SourceMapSchema.Mapping) : Mapping :=
  { generated := ⟨intAdd seg.generatedLine lineOffset, intAdd seg.generatedColumn columnOffset⟩
    original := ⟨seg.originalLine, seg.originalColumn⟩
    source := if seg.source > -1 then intAdd seg.source sources else -1
    name := if seg.name > -1 then intAdd seg.name names else -1 }

/-- The body of the segment loop of `addBufferMappings` (SourceMap.cpp lines 106
to 112): one `addMapping` call. -/
def addBufferSegment (lineOffset columnOffset sources names : Int)
    (c : MappingContainer) (seg : SourceMapSchema.Mapping) : Option MappingContainer :=
  let m := mergedSegment lineOffset columnOffset sources names seg
  c.addMapping m.generated m.original m.source m.name

/-- The body of the line loop of `addBufferMappings` (SourceMap.cpp lines 98 to
117). `snapshot` is the length of the copy of the line vector taken at line
94; the lookup at line 102 indexes that copy by the record's line number. -/
def addBufferLine (snapshot : Nat) (lineOffset columnOffset sources names : Int)
    (c : MappingContainer) (line : SourceMapSchema.MappingLine) : Option MappingContainer :=
  if line.lineNumber < 0 ∨ (snapshot : Int) ≤ line.lineNumber then none
  else
    let isNewLine := (c.segsAt line.lineNumber.toNat).isEmpty
    match line.segments.foldlM (addBufferSegment lineOffset columnOffset sources names) c with
    | none => none
    | some c1 =>
      some (if isNewLine then c1.setLineSorted line.lineNumber.toNat line.isSorted else c1)

/-- Method `SourceMapBinding::addBufferMappings` (SourceMap.cpp lines 87 to 128)
on the decoded buffer; the argument of the pre-growth at line 92 is an `int`
sum. -/
def addBufferMappings (c : MappingContainer) (map : SourceMapSchema.Map)
    (lineOffset columnOffset : Int) : Option MappingContainer :=
  let sources := c.getSourcesCount
  let names := c.getNamesCount
  let c1 := c.createLinesIfUndefined (intAdd map.lineCount lineOffset)
  match map.lines.foldlM
      (addBufferLine c1.mapping_lines.length lineOffset columnOffset sources names) c1 with
  | none => none
  | some c2 =>
    let c3 := map.sources.foldl (fun acc s => (acc.addSource s).1) c2
    some (map.names.foldl (fun acc s => (acc.addName s).1) c3)

/-- The object returned by `stringify`. -/
structure Stringified where
  mappings : String
  sources : List String
  names : List String
deriving DecidableEq, Repr

/-- Method `SourceMapBinding::stringify` (SourceMap.cpp lines 135 to 154). -/
def stringify (c : MappingContainer) : Stringified :=
  { mappings := c.toVLQMappings, sources := c.sources, names := c.names }

/-- The schema struct written for one stored segment (SourceMap.cpp lines 197 to
199). -/
def toSchemaMapping (mapping : Mapping) : SourceMapSchema.Mapping :=
  ⟨mapping.generated.line, mapping.generated.column, mapping.original.line,
   mapping.original.column, mapping.source, mapping.name⟩

/-- Method `SourceMapBinding::toBuffer` (SourceMap.cpp lines 161 to 211): the
buffer content and the container, which the call sorts in place. -/
def toBuffer (c : MappingContainer) : SourceMapSchema.Map × MappingContainer :=
  let c1 := c.sort
  ({ names := c1.names
     sources := c1.sources
     lineCount := c1.generated_lines
     lines := c1.mapping_lines.map
       (fun line => ⟨line.lineNumber, line.isSorted, line.segments.map toSchemaMapping⟩) },
   c1)

/-- A position object of the host, `line` and `column`. -/
structure PositionObject where
  line : Int
  column : Int
deriving DecidableEq, Repr

/-- A mapping object of `getMap`; absent keys are `none`. -/
structure MappingObject where
  generated : PositionObject
  original : Option PositionObject
  source : Option Int
  name : Option Int
deriving DecidableEq, Repr

/-- The mapping object built for one segment (SourceMap.cpp lines 250 to 270). -/
def mappingObject (mapping : Mapping) : MappingObject :=
  { generated := ⟨mapping.generated.line, mapping.generated.column⟩
    original :=
      if mapping.source > -1 then some ⟨mapping.original.column, mapping.original.column⟩
      else none
    source := if mapping.source > -1 then some mapping.source else none
    name := if mapping.name > -1 then some mapping.name else none }

/-- The object returned by `getMap`. -/
structure MapObject where
  sources : List String
  names : List String
  mappings : List MappingObject
deriving DecidableEq, Repr

/-- Method `SourceMapBinding::getMap` (SourceMap.cpp lines 219 to 279): the
returned object and the container, which the call sorts in place. -/
def getMap (c : MappingContainer) : MapObject × MappingContainer :=
  let c1 := c.sort
  ({ sources := c1.sources
     names := c1.names
     mappings := (c1.mapping_lines.map
       (fun line => line.segments.map mappingObject)).flatten },
   c1)

/-- Method `SourceMapBinding::addSources` (SourceMap.cpp lines 404 to 411): the
indices returned to the host. -/
def addSources (c : MappingContainer) (arr : List NapiValue) : MappingContainer × List Int :=
  _addSources c arr

/-- Method `SourceMapBinding::addNames` (SourceMap.cpp lines 370 to 377): the
indices returned to the host. -/
def addNames (c : MappingContainer) (arr : List NapiValue) : MappingContainer × List Int :=
  _addNames c arr

end SourceMapBinding

/-! ## Representation invariants -/

/-- The representation invariant of section 3 that every operation keeps: the
pools hold unique strings, the line vector is dense up to `generated_lines`,
each line is numbered by its index and holds only segments of that generated
line, and `last_column` bounds the generated columns of its line. -/
structure WellFormed (c : MappingContainer) : Prop where
  sources_nodup : c.sources.Nodup
  names_nodup : c.names.Nodup
  lines_length : (c.mapping_lines.length : Int) = c.generated_lines + 1
  line_number : ∀ (i : Nat) (l : MappingLine), c.mapping_lines[i]? = some l → l.lineNumber = i
  generated_line : ∀ (i : Nat) (l : MappingLine), c.mapping_lines[i]? = some l →
    ∀ m ∈ l.segments, m.generated.line = i
  last_column : ∀ l ∈ c.mapping_lines, ∀ m ∈ l.segments, m.generated.column ≤ l.lastColumn

/-- The sorted-flag invariant of section 8: every line flagged sorted has its
segments non-decreasing in generated column. -/
def SortedFlags (c : MappingContainer) : Prop :=
  ∀ l ∈ c.mapping_lines, l.isSorted = true → l.segments.Sorted colLE

/-- All segments of a buffer in document order: line records in order, the
segments of each in order. -/
def allSegments (map : SourceMapSchema.Map) : List SourceMapSchema.Mapping :=
  map.lines.flatMap (fun line => line.segments)

/-- The pool after `add` of every string of a list, in order. -/
def poolAddAll (pool : List String) (l : List String) : List String :=
  l.foldl (fun p s => (MappingContainer.poolAdd p s).1) pool

namespace SourceMapBinding

/-- The merged segments of a list of buffer segments that land on line `j`, in
document order. -/
def landing (lo co sb nb : Int) (ss : List SourceMapSchema.Mapping) (j : Nat) : List Mapping :=
  (ss.map (mergedSegment lo co sb nb)).filter (fun m => decide ((j : Int) = m.generated.line))

end SourceMapBinding

/-- A segment with every negative source or name index replaced by minus one. -/
def clampIndices (m : Mapping) : Mapping :=
  { m with
    source := if m.source < 0 then -1 else m.source
    name := if m.name < 0 then -1 else m.name }

/-- The inputs on which every vector access of `addBufferMappings` is in range:
each record's line number indexes the copy of the line vector taken after
`createLinesIfUndefined`, and each segment's target line is not negative. -/
def MergeDefined (c : MappingContainer) (map : SourceMapSchema.Map) (lineOffset : Int) : Prop :=
  ∀ line ∈ map.lines,
    0 ≤ line.lineNumber ∧
    line.lineNumber
      < ((c.createLinesIfUndefined
            (intAdd map.lineCount lineOffset)).mapping_lines.length : Int) ∧
    ∀ seg ∈ line.segments, 0 ≤ intAdd seg.generatedLine lineOffset

/-- The container after `add_raw_mappings("AFAA", [], [])`: one segment whose
source index is minus two. -/
def negativeSourceSample : MappingContainer :=
  { sources := [], names := []
    mapping_lines := [⟨0, [⟨⟨0, 0⟩, ⟨0, 0⟩, -2, -1⟩], true, 0⟩]
    generated_columns := 0, generated_lines := 0, segment_count := 1 }

/-- A container with one line holding columns 5 then 3, flag cleared. -/
def unsortedSample : MappingContainer :=
  { sources := ["a.js"], names := []
    mapping_lines := [⟨0, [⟨⟨0, 5⟩, ⟨0, 0⟩, 0, -1⟩, ⟨⟨0, 3⟩, ⟨0, 1⟩, 0, -1⟩], false, 5⟩]
    generated_columns := 5, generated_lines := 0, segment_count := 2 }

/-- A buffer with one line record, numbered 0 and flagged unsorted, holding one
segment at generated line 0, column 0. -/
def unsortedRecordBuffer : SourceMapSchema.Map :=
  { names := [], sources := [], lineCount := 0
    lines := [⟨0, false, [⟨0, 0, -1, -1, -1, -1⟩]⟩] }

/-- A container with one source in its pool and no lines. -/
def oneSourceSample : MappingContainer :=
  { sources := ["a.js"], names := [], mapping_lines := []
    generated_columns := 0, generated_lines := -1, segment_count := 0 }

/-- A buffer with pools `["b.js"]` and `["x"]` and one segment on line 0 that
refers to source 0 and name 0. -/
def freshPoolBuffer : SourceMapSchema.Map :=
  { names := ["x"], sources := ["b.js"], lineCount := 0
    lines := [⟨0, true, [⟨0, 0, 0, 0, 0, 0⟩]⟩] }

/-- A buffer whose only source, `"a.js"`, is already in the pool of
`oneSourceSample`, with one segment on line 0 that refers to it. -/
def collidingPoolBuffer : SourceMapSchema.Map :=
  { names := [], sources := ["a.js"], lineCount := 0
    lines := [⟨0, true, [⟨0, 0, 0, 0, 0, -1⟩]⟩] }

/-- A buffer whose only line record is flagged sorted while its segments stand
at columns 5 then 3. -/
def lyingFlagBuffer : SourceMapSchema.Map :=
  { names := [], sources := [], lineCount := 0
    lines := [⟨0, true, [⟨0, 5, -1, -1, -1, -1⟩, ⟨0, 3, -1, -1, -1, -1⟩]⟩] }

/-- The container after merging `lyingFlagBuffer` into the empty container: the
copied flag is set on a line holding columns 5 then 3. -/
def lyingFlagSample : MappingContainer :=
  { sources := [], names := []
    mapping_lines :=
      [⟨0, [⟨⟨0, 5⟩, ⟨-1, -1⟩, -1, -1⟩, ⟨⟨0, 3⟩, ⟨-1, -1⟩, -1, -1⟩], true, 5⟩]
    generated_columns := 5, generated_lines := 0, segment_count := 2 }

/-- The per-line invariant behind the sorted flag: `last_column` bounds the
generated columns of the line, and a set flag means non-decreasing columns. -/
def LineOK (l : MappingLine) : Prop :=
  (∀ m ∈ l.segments, m.generated.column ≤ l.lastColumn) ∧
  (l.isSorted = true → l.segments.Sorted colLE)

/-- Order of two buffer segments by generated column. -/
def schemaColLE (a b : SourceMapSchema.Mapping) : Prop := a.generatedColumn ≤ b.generatedColumn

/-- Every line, existing or yet to be created, satisfies `LineOK`. -/
def AllLinesOK (c : MappingContainer) : Prop := ∀ j, LineOK (c.lineAt j)

/-- The string the binding interns for an array entry: the entry itself, or the
empty string for a non-string. -/
def napiString : NapiValue → String
  | .string s => s
  | .other => ""

/-- The generated line an event refers to. -/
def VlqEvent.generatedLine : VlqEvent → Int
  | .segment g _ _ _ => g.line
  | .line n => n

/-- The events `applyEvent` has a result for: a segment whose generated line is
not negative, and every line event. -/
def VlqEvent.accepted : VlqEvent → Prop
  | .segment g _ _ _ => 0 ≤ g.line
  | .line _ => True

instance VlqEvent.accepted.decidable (ev : VlqEvent) : Decidable ev.accepted :=
  match ev with
  | .segment g _ _ _ => inferInstanceAs (Decidable (0 ≤ g.line))
  | .line _ => inferInstanceAs (Decidable True)

/-- The container after a second `add_raw_mappings("AAAA", ["b.js"], [], 1, 0)`. -/
def secondRawSample : MappingContainer :=
  { sources := ["a.js", "b.js"], names := []
    mapping_lines := [⟨0, [⟨⟨0, 0⟩, ⟨0, 0⟩, 0, -1⟩], true, 0⟩,
                      ⟨1, [⟨⟨1, 0⟩, ⟨0, 0⟩, 1, -1⟩], true, 0⟩]
    generated_columns := 0, generated_lines := 1, segment_count := 2 }

/-- The four sums of the merge of one buffer segment fit in `int`: generated
line plus line offset, generated column plus column offset, and, for an index
that is not negative, source index plus sources base and name index plus names
base. -/
def SumsFit (lo co sb nb : Int) (seg : SourceMapSchema.Mapping) : Prop :=
  inInt32 (seg.generatedLine + lo) ∧ inInt32 (seg.generatedColumn + co) ∧
  (0 ≤ seg.source → inInt32 (seg.source + sb)) ∧ (0 ≤ seg.name → inInt32 (seg.name + nb))

/-- A buffer with one segment on line 0 whose generated column and source index
are both the largest `int`, 2147483647. -/
def overflowBuffer : SourceMapSchema.Map :=
  { names := [], sources := [], lineCount := 0
    lines := [⟨0, true, [⟨0, 2147483647, 0, 0, 2147483647, -1⟩]⟩] }

/-- A container with one line holding columns 0 then 1, flag set. -/
def sortedPairSample : MappingContainer :=
  { sources := [], names := []
    mapping_lines :=
      [⟨0, [⟨⟨0, 0⟩, ⟨-1, -1⟩, -1, -1⟩, ⟨⟨0, 1⟩, ⟨-1, -1⟩, -1, -1⟩], true, 1⟩]
    generated_columns := 1, generated_lines := 0, segment_count := 2 }

/-- The container after merging the buffer of `sortedPairSample` into the empty
container at column offset 2147483647: the second column has wrapped. -/
def wrappedPairSample : MappingContainer :=
  { sources := [], names := []
    mapping_lines :=
      [⟨0, [⟨⟨0, 2147483647⟩, ⟨-1, -1⟩, -1, -1⟩, ⟨⟨0, -2147483648⟩, ⟨-1, -1⟩, -1, -1⟩],
        true, 2147483647⟩]
    generated_columns := 2147483647, generated_lines := 0, segment_count := 2 }

/-! ## Lemmas on `int` arithmetic -/

theorem wrapInt32_of_inInt32 {x : Int} (h : inInt32 x) : wrapInt32 x = x := by
  unfold inInt32 at h
  unfold wrapInt32
  omega

theorem intAdd_of_inInt32 {a b : Int} (h : inInt32 (a + b)) : intAdd a b = a + b := by
  unfold intAdd
  split
  · exact wrapInt32_of_inInt32 h
  · rfl

theorem intAdd_zero (a : Int) : intAdd a 0 = a := by
  unfold intAdd
  split
  · rename_i h
    rw [Int.add_zero]
    exact wrapInt32_of_inInt32 h.1
  · exact Int.add_zero a

theorem inInt32_wrapInt32 (x : Int) : inInt32 (wrapInt32 x) := by
  unfold inInt32 wrapInt32
  omega

/-! ## Lemmas on the line vector -/

theorem modifyAt_length (f : MappingLine → MappingLine) :
    ∀ (l : List MappingLine) (i : Nat), (modifyAt f l i).length = l.length
  | [], _ => rfl
  | _ :: _, 0 => rfl
  | _ :: ls, i + 1 => by simp [modifyAt, modifyAt_length f ls i]

theorem modifyAt_getElem? (f : MappingLine → MappingLine) :
    ∀ (l : List MappingLine) (i j : Nat),
      (modifyAt f l i)[j]? = if j = i then l[j]?.map f else l[j]?
  | [], _, _ => by simp [modifyAt]
  | _ :: _, 0, 0 => by simp [modifyAt]
  | _ :: _, 0, j + 1 => by simp [modifyAt]
  | _ :: _, i + 1, 0 => by simp [modifyAt]
  | _ :: ls, i + 1, j + 1 => by simp [modifyAt, modifyAt_getElem? f ls i j]

theorem mem_modifyAt {f : MappingLine → MappingLine} :
    ∀ {l : List MappingLine} {i : Nat} {x : MappingLine},
      x ∈ modifyAt f l i → x ∈ l ∨ ∃ y ∈ l, x = f y
  | [], _, _, h => by simp [modifyAt] at h
  | a :: ls, 0, x, h => by
    simp only [modifyAt, List.mem_cons] at h
    rcases h with h | h
    · exact Or.inr ⟨a, by simp, h⟩
    · exact Or.inl (by simp [h])
  | a :: ls, i + 1, x, h => by
    simp only [modifyAt, List.mem_cons] at h
    rcases h with h | h
    · exact Or.inl (by simp [h])
    · rcases mem_modifyAt h with h' | ⟨y, hy, hxy⟩
      · exact Or.inl (by simp [h'])
      · exact Or.inr ⟨y, by simp [hy], hxy⟩

namespace MappingContainer

theorem segsAt_of_getElem? {c : MappingContainer} {i : Nat} {l : MappingLine}
    (h : c.mapping_lines[i]? = some l) : c.segsAt i = l.segments := by
  simp [segsAt, h]

theorem segsAt_of_length_le {c : MappingContainer} {i : Nat}
    (h : c.mapping_lines.length ≤ i) : c.segsAt i = [] := by
  simp [segsAt, List.getElem?_eq_none h]

theorem createLines_length (c : MappingContainer) (n : Int) :
    (c.createLinesIfUndefined n).mapping_lines.length
      = max c.mapping_lines.length (n + 1).toNat := by
  simp only [createLinesIfUndefined, List.length_append, List.length_map, List.length_range]
  omega

theorem createLines_getElem?_old (c : MappingContainer) (n : Int) {i : Nat}
    (h : i < c.mapping_lines.length) :
    (c.createLinesIfUndefined n).mapping_lines[i]? = c.mapping_lines[i]? := by
  simp [createLinesIfUndefined, List.getElem?_append_left h]

theorem createLines_getElem?_new (c : MappingContainer) (n : Int) {i : Nat}
    (h : c.mapping_lines.length ≤ i) (h' : (i : Int) ≤ n) :
    (c.createLinesIfUndefined n).mapping_lines[i]? = some (MappingLine.new i) := by
  simp only [createLinesIfUndefined]
  rw [List.getElem?_append_right h]
  have hlt : i - c.mapping_lines.length < (n + 1 - (c.mapping_lines.length : Int)).toNat := by
    omega
  rw [List.getElem?_map, List.getElem?_range hlt]
  simp only [Option.map_some']
  congr 2
  omega

theorem createLines_segsAt (c : MappingContainer) (n : Int) (i : Nat) :
    (c.createLinesIfUndefined n).segsAt i = c.segsAt i := by
  by_cases h : i < c.mapping_lines.length
  · simp [segsAt, createLines_getElem?_old c n h]
  · have h1 : c.mapping_lines.length ≤ i := Nat.le_of_not_lt h
    rw [segsAt_of_length_le h1]
    by_cases h2 : (i : Int) ≤ n
    · simp [segsAt, createLines_getElem?_new c n h1 h2, MappingLine.new]
    · apply segsAt_of_length_le
      rw [createLines_length]
      omega

theorem lineAt_of_lt {c : MappingContainer} {i : Nat} (h : i < c.mapping_lines.length) :
    c.mapping_lines[i]? = some (c.lineAt i) := by
  simp [lineAt, List.getElem?_eq_getElem h]

theorem lineAt_of_le {c : MappingContainer} {i : Nat} (h : c.mapping_lines.length ≤ i) :
    c.lineAt i = MappingLine.new i := by
  simp [lineAt, List.getElem?_eq_none h]

theorem segsAt_eq_lineAt (c : MappingContainer) (i : Nat) :
    c.segsAt i = (c.lineAt i).segments := by
  unfold segsAt lineAt
  cases c.mapping_lines[i]? <;> rfl

theorem lineAt_createLines (c : MappingContainer) (n : Int) (i : Nat) :
    (c.createLinesIfUndefined n).lineAt i = c.lineAt i := by
  by_cases h : i < c.mapping_lines.length
  · simp [lineAt, createLines_getElem?_old c n h]
  · have h1 : c.mapping_lines.length ≤ i := Nat.le_of_not_lt h
    rw [lineAt_of_le h1]
    by_cases h2 : (i : Int) ≤ n
    · simp [lineAt, createLines_getElem?_new c n h1 h2]
    · apply lineAt_of_le
      rw [createLines_length]
      omega

theorem mem_lines_iff_lineAt {c : MappingContainer} {l : MappingLine} :
    l ∈ c.mapping_lines ↔ ∃ i, i < c.mapping_lines.length ∧ c.lineAt i = l := by
  constructor
  · intro h
    obtain ⟨i, hi, rfl⟩ := List.getElem_of_mem h
    exact ⟨i, hi, by simp [lineAt, List.getElem?_eq_getElem hi]⟩
  · rintro ⟨i, hi, rfl⟩
    have := lineAt_of_lt hi
    exact List.getElem?_mem this

theorem addMapping_eq_none {c : MappingContainer} {g o : Position} {s n : Int} :
    c.addMapping g o s n = none ↔ g.line < 0 := by
  unfold addMapping
  split <;> simp_all

theorem addMapping_isSome {c : MappingContainer} {g o : Position} {s n : Int}
    (h : 0 ≤ g.line) : ∃ c', c.addMapping g o s n = some c' := by
  cases hc : c.addMapping g o s n with
  | some c' => exact ⟨c', rfl⟩
  | none => rw [addMapping_eq_none] at hc; omega

theorem addMapping_line_nonneg {c c' : MappingContainer} {g o : Position} {s n : Int}
    (h : c.addMapping g o s n = some c') : 0 ≤ g.line := by
  by_contra hneg
  have : c.addMapping g o s n = none := addMapping_eq_none.mpr (by omega)
  rw [this] at h
  cases h

theorem addMapping_lines {c c' : MappingContainer} {g o : Position} {s n : Int}
    (h : c.addMapping g o s n = some c') :
    c'.mapping_lines = modifyAt (fun l => l.addMapping ⟨g, o, s, n⟩)
      (c.createLinesIfUndefined g.line).mapping_lines g.line.toNat := by
  have h0 := addMapping_line_nonneg h
  unfold addMapping at h
  rw [if_neg (by omega)] at h
  cases h
  rfl

theorem addMapping_sources {c c' : MappingContainer} {g o : Position} {s n : Int}
    (h : c.addMapping g o s n = some c') : c'.sources = c.sources := by
  have h0 := addMapping_line_nonneg h
  unfold addMapping at h
  rw [if_neg (by omega)] at h
  cases h
  rfl

theorem addMapping_names {c c' : MappingContainer} {g o : Position} {s n : Int}
    (h : c.addMapping g o s n = some c') : c'.names = c.names := by
  have h0 := addMapping_line_nonneg h
  unfold addMapping at h
  rw [if_neg (by omega)] at h
  cases h
  rfl

theorem addMapping_generated_lines {c c' : MappingContainer} {g o : Position} {s n : Int}
    (h : c.addMapping g o s n = some c') :
    c'.generated_lines = max c.generated_lines g.line := by
  have h0 := addMapping_line_nonneg h
  unfold addMapping at h
  rw [if_neg (by omega)] at h
  cases h
  rfl

theorem addMapping_length {c c' : MappingContainer} {g o : Position} {s n : Int}
    (h : c.addMapping g o s n = some c') :
    c'.mapping_lines.length = max c.mapping_lines.length (g.line + 1).toNat := by
  rw [addMapping_lines h, modifyAt_length, createLines_length]

theorem addMapping_lineAt {c c' : MappingContainer} {g o : Position} {s n : Int}
    (h : c.addMapping g o s n = some c') (j : Nat) :
    c'.lineAt j = if (j : Int) = g.line then (c.lineAt j).addMapping ⟨g, o, s, n⟩
      else c.lineAt j := by
  have h0 := addMapping_line_nonneg h
  have hl := addMapping_lines h
  by_cases hj : (j : Int) = g.line
  · have hk : g.line.toNat = j := by omega
    have hlt : j < (c.createLinesIfUndefined g.line).mapping_lines.length := by
      rw [createLines_length]; omega
    rw [if_pos hj]
    unfold lineAt
    rw [hl, modifyAt_getElem?, hk, if_pos rfl, lineAt_of_lt hlt, lineAt_createLines]
    simp [lineAt]
  · have hk : ¬ j = g.line.toNat := by omega
    rw [if_neg hj]
    have := lineAt_createLines c g.line j
    unfold lineAt at this ⊢
    rw [hl, modifyAt_getElem?, if_neg hk]
    exact this

theorem addMapping_segsAt {c c' : MappingContainer} {g o : Position} {s n : Int}
    (h : c.addMapping g o s n = some c') (j : Nat) :
    c'.segsAt j = c.segsAt j ++ (if (j : Int) = g.line then [⟨g, o, s, n⟩] else []) := by
  rw [segsAt_eq_lineAt, segsAt_eq_lineAt, addMapping_lineAt h j]
  split <;> simp [MappingLine.addMapping]

theorem setLineSorted_lineAt (c : MappingContainer) {i : Nat} (v : Bool)
    (hi : i < c.mapping_lines.length) (j : Nat) :
    (c.setLineSorted i v).lineAt j
      = if j = i then (c.lineAt j).setIsSorted v else c.lineAt j := by
  unfold setLineSorted
  by_cases hj : j = i
  · subst hj
    rw [if_pos rfl]
    have := lineAt_of_lt hi
    simp only [lineAt, modifyAt_getElem?, if_pos] at this ⊢
    rw [this]
    rfl
  · rw [if_neg hj]
    simp only [lineAt, modifyAt_getElem?, if_neg hj]

theorem setLineSorted_segsAt (c : MappingContainer) (i : Nat) (v : Bool) (j : Nat) :
    (c.setLineSorted i v).segsAt j = c.segsAt j := by
  unfold setLineSorted segsAt
  simp only [modifyAt_getElem?]
  by_cases hj : j = i
  · rw [if_pos hj]
    cases c.mapping_lines[j]? <;> rfl
  · rw [if_neg hj]

theorem setLineSorted_length (c : MappingContainer) (i : Nat) (v : Bool) :
    (c.setLineSorted i v).mapping_lines.length = c.mapping_lines.length := by
  simp [setLineSorted, modifyAt_length]

end MappingContainer

/-! ## Lemmas on the loops of the buffer merge -/

theorem foldlM_option_invariant {σ α : Type} (P : σ → Prop) (f : σ → α → Option σ) :
    ∀ (l : List α) (c c' : σ),
      (∀ a ∈ l, ∀ s s', P s → f s a = some s' → P s') → P c →
      l.foldlM f c = some c' → P c'
  | [], c, c', _, h0, h => by
    simp only [List.foldlM_nil, pure, Option.some.injEq] at h
    exact h ▸ h0
  | a :: l, c, c', hstep, h0, h => by
    simp only [List.foldlM_cons, Option.bind_eq_bind, Option.bind_eq_some] at h
    obtain ⟨c1, h1, h2⟩ := h
    exact foldlM_option_invariant P f l c1 c'
      (fun b hb s s' => hstep b (List.mem_cons_of_mem _ hb) s s')
      (hstep a (List.mem_cons_self _ _) c c1 h0 h1) h2

theorem foldlM_option_isSome {σ α : Type} (f : σ → α → Option σ) :
    ∀ (l : List α) (c : σ), (∀ a ∈ l, ∀ s, ∃ s', f s a = some s') →
      ∃ c', l.foldlM f c = some c'
  | [], c, _ => ⟨c, rfl⟩
  | a :: l, c, h => by
    obtain ⟨c1, h1⟩ := h a (List.mem_cons_self _ _) c
    obtain ⟨c', h2⟩ := foldlM_option_isSome f l c1
      (fun b hb => h b (List.mem_cons_of_mem _ hb))
    exact ⟨c', by simp [List.foldlM_cons, h1, h2]⟩

namespace SourceMapBinding

open MappingContainer

theorem landing_nil (lo co sb nb : Int) (j : Nat) : landing lo co sb nb [] j = [] := rfl

theorem landing_append (lo co sb nb : Int) (xs ys : List SourceMapSchema.Mapping) (j : Nat) :
    landing lo co sb nb (xs ++ ys) j = landing lo co sb nb xs j ++ landing lo co sb nb ys j := by
  simp [landing]

theorem addBufferSegment_segsAt {lo co sb nb : Int} {c c' : MappingContainer}
    {seg : SourceMapSchema.Mapping} (h : addBufferSegment lo co sb nb c seg = some c')
    (j : Nat) : c'.segsAt j = c.segsAt j ++ landing lo co sb nb [seg] j := by
  unfold addBufferSegment at h
  rw [addMapping_segsAt h j]
  by_cases hj : (j : Int) = (mergedSegment lo co sb nb seg).generated.line
  · simp [landing, hj]
  · simp [landing, hj]

theorem foldSegments_segsAt {lo co sb nb : Int} :
    ∀ (ss : List SourceMapSchema.Mapping) {c c' : MappingContainer},
      ss.foldlM (addBufferSegment lo co sb nb) c = some c' →
      ∀ j, c'.segsAt j = c.segsAt j ++ landing lo co sb nb ss j
  | [], c, c', h, j => by
    simp only [List.foldlM_nil, pure, Option.some.injEq] at h
    simp [h, landing_nil]
  | seg :: ss, c, c', h, j => by
    simp only [List.foldlM_cons, Option.bind_eq_bind, Option.bind_eq_some] at h
    obtain ⟨c1, h1, h2⟩ := h
    rw [foldSegments_segsAt ss h2 j, addBufferSegment_segsAt h1 j, List.append_assoc,
      ← landing_append]
    rfl

theorem foldSegments_isSome (lo co sb nb : Int) (ss : List SourceMapSchema.Mapping)
    (c : MappingContainer) (h : ∀ seg ∈ ss, 0 ≤ intAdd seg.generatedLine lo) :
    ∃ c', ss.foldlM (addBufferSegment lo co sb nb) c = some c' :=
  foldlM_option_isSome _ ss c (fun seg hseg _ => addMapping_isSome (h seg hseg))

theorem foldSegments_length {lo co sb nb : Int} (ss : List SourceMapSchema.Mapping)
    {c c' : MappingContainer} (h : ss.foldlM (addBufferSegment lo co sb nb) c = some c') :
    c.mapping_lines.length ≤ c'.mapping_lines.length :=
  foldlM_option_invariant (fun s => c.mapping_lines.length ≤ s.mapping_lines.length) _ ss c c'
    (fun _ _ s s' hs hstep => by
      have := addMapping_length hstep
      omega)
    (Nat.le_refl _) h

theorem foldSegments_sources {lo co sb nb : Int} (ss : List SourceMapSchema.Mapping)
    {c c' : MappingContainer} (h : ss.foldlM (addBufferSegment lo co sb nb) c = some c') :
    c'.sources = c.sources :=
  foldlM_option_invariant (fun s => s.sources = c.sources) _ ss c c'
    (fun _ _ _ _ hs hstep => (addMapping_sources hstep).trans hs) rfl h

theorem foldSegments_names {lo co sb nb : Int} (ss : List SourceMapSchema.Mapping)
    {c c' : MappingContainer} (h : ss.foldlM (addBufferSegment lo co sb nb) c = some c') :
    c'.names = c.names :=
  foldlM_option_invariant (fun s => s.names = c.names) _ ss c c'
    (fun _ _ _ _ hs hstep => (addMapping_names hstep).trans hs) rfl h

theorem foldSegments_generated_lines {lo co sb nb : Int} (ss : List SourceMapSchema.Mapping)
    {c c' : MappingContainer} (G : Int) (hG : ∀ seg ∈ ss, intAdd seg.generatedLine lo ≤ G)
    (hc : c.generated_lines = G)
    (h : ss.foldlM (addBufferSegment lo co sb nb) c = some c') :
    c'.generated_lines = G :=
  foldlM_option_invariant (fun s => s.generated_lines = G) _ ss c c'
    (fun seg hseg s s' hs hstep => by
      have h1 := addMapping_generated_lines hstep
      have h2 := hG seg hseg
      simp only [mergedSegment] at h1
      omega)
    hc h

/-- What `addBufferLine` returns, split into its two steps. -/
theorem addBufferLine_some {snapshot : Nat} {lo co sb nb : Int} {c c' : MappingContainer}
    {line : SourceMapSchema.MappingLine}
    (h : addBufferLine snapshot lo co sb nb c line = some c') :
    0 ≤ line.lineNumber ∧ line.lineNumber < snapshot ∧
    ∃ c1, line.segments.foldlM (addBufferSegment lo co sb nb) c = some c1 ∧
      c' = if (c.segsAt line.lineNumber.toNat).isEmpty
           then c1.setLineSorted line.lineNumber.toNat line.isSorted else c1 := by
  unfold addBufferLine at h
  split at h
  · cases h
  · rename_i hb
    cases hf : line.segments.foldlM (addBufferSegment lo co sb nb) c with
    | none => rw [hf] at h; cases h
    | some c1 =>
      rw [hf] at h
      simp only [Option.some.injEq] at h
      refine ⟨by omega, by omega, c1, rfl, h.symm⟩

theorem addBufferLine_isSome (snapshot : Nat) (lo co sb nb : Int) (c : MappingContainer)
    (line : SourceMapSchema.MappingLine)
    (h0 : 0 ≤ line.lineNumber) (h1 : line.lineNumber < snapshot)
    (h2 : ∀ seg ∈ line.segments, 0 ≤ intAdd seg.generatedLine lo) :
    ∃ c', addBufferLine snapshot lo co sb nb c line = some c' := by
  obtain ⟨c1, hc1⟩ := foldSegments_isSome lo co sb nb line.segments c h2
  unfold addBufferLine
  rw [if_neg (by omega), hc1]
  exact ⟨_, rfl⟩

theorem foldLines_segsAt {snapshot : Nat} {lo co sb nb : Int} :
    ∀ (ls : List SourceMapSchema.MappingLine) {c c' : MappingContainer},
      ls.foldlM (addBufferLine snapshot lo co sb nb) c = some c' →
      ∀ j, c'.segsAt j
        = c.segsAt j ++ landing lo co sb nb (ls.flatMap (fun line => line.segments)) j
  | [], c, c', h, j => by
    simp only [List.foldlM_nil, pure, Option.some.injEq] at h
    simp [h, landing_nil]
  | line :: ls, c, c', h, j => by
    simp only [List.foldlM_cons, Option.bind_eq_bind, Option.bind_eq_some] at h
    obtain ⟨c1, h1, h2⟩ := h
    obtain ⟨_, _, c0, hc0, rfl⟩ := addBufferLine_some h1
    have hseg : ∀ j, (if (c.segsAt line.lineNumber.toNat).isEmpty
        then c0.setLineSorted line.lineNumber.toNat line.isSorted else c0).segsAt j
        = c.segsAt j ++ landing lo co sb nb line.segments j := by
      intro j
      split
      · rw [setLineSorted_segsAt, foldSegments_segsAt _ hc0 j]
      · rw [foldSegments_segsAt _ hc0 j]
    rw [foldLines_segsAt ls h2 j, hseg j, List.flatMap_cons, landing_append,
      List.append_assoc]

theorem addBufferLine_length {snapshot : Nat} {lo co sb nb : Int} {c c' : MappingContainer}
    {line : SourceMapSchema.MappingLine}
    (h : addBufferLine snapshot lo co sb nb c line = some c') :
    c.mapping_lines.length ≤ c'.mapping_lines.length := by
  obtain ⟨_, _, c0, hc0, rfl⟩ := addBufferLine_some h
  have := foldSegments_length _ hc0
  split
  · rw [setLineSorted_length]; exact this
  · exact this

theorem addBufferLine_sources {snapshot : Nat} {lo co sb nb : Int} {c c' : MappingContainer}
    {line : SourceMapSchema.MappingLine}
    (h : addBufferLine snapshot lo co sb nb c line = some c') :
    c'.sources = c.sources := by
  obtain ⟨_, _, c0, hc0, rfl⟩ := addBufferLine_some h
  have := foldSegments_sources _ hc0
  split
  · exact this
  · exact this

theorem addBufferLine_names {snapshot : Nat} {lo co sb nb : Int} {c c' : MappingContainer}
    {line : SourceMapSchema.MappingLine}
    (h : addBufferLine snapshot lo co sb nb c line = some c') :
    c'.names = c.names := by
  obtain ⟨_, _, c0, hc0, rfl⟩ := addBufferLine_some h
  have := foldSegments_names _ hc0
  split
  · exact this
  · exact this

theorem addBufferLine_generated_lines {snapshot : Nat} {lo co sb nb : Int}
    {c c' : MappingContainer} {line : SourceMapSchema.MappingLine} (G : Int)
    (hG : ∀ seg ∈ line.segments, intAdd seg.generatedLine lo ≤ G) (hc : c.generated_lines = G)
    (h : addBufferLine snapshot lo co sb nb c line = some c') :
    c'.generated_lines = G := by
  obtain ⟨_, _, c0, hc0, rfl⟩ := addBufferLine_some h
  have := foldSegments_generated_lines _ G hG hc hc0
  split
  · exact this
  · exact this

theorem foldLines_isSome (snapshot : Nat) (lo co sb nb : Int)
    (ls : List SourceMapSchema.MappingLine) (c : MappingContainer)
    (h : ∀ line ∈ ls, 0 ≤ line.lineNumber ∧ line.lineNumber < snapshot ∧
      ∀ seg ∈ line.segments, 0 ≤ intAdd seg.generatedLine lo) :
    ∃ c', ls.foldlM (addBufferLine snapshot lo co sb nb) c = some c' :=
  foldlM_option_isSome _ ls c
    (fun line hline s => addBufferLine_isSome snapshot lo co sb nb s line (h line hline).1
      (h line hline).2.1 (h line hline).2.2)

theorem foldLines_length {snapshot : Nat} {lo co sb nb : Int}
    (ls : List SourceMapSchema.MappingLine) {c c' : MappingContainer}
    (h : ls.foldlM (addBufferLine snapshot lo co sb nb) c = some c') :
    c.mapping_lines.length ≤ c'.mapping_lines.length :=
  foldlM_option_invariant (fun s => c.mapping_lines.length ≤ s.mapping_lines.length) _ ls c c'
    (fun _ _ _ _ hs hstep => Nat.le_trans hs (addBufferLine_length hstep))
    (Nat.le_refl _) h

theorem foldLines_sources {snapshot : Nat} {lo co sb nb : Int}
    (ls : List SourceMapSchema.MappingLine) {c c' : MappingContainer}
    (h : ls.foldlM (addBufferLine snapshot lo co sb nb) c = some c') :
    c'.sources = c.sources :=
  foldlM_option_invariant (fun s => s.sources = c.sources) _ ls c c'
    (fun _ _ _ _ hs hstep => (addBufferLine_sources hstep).trans hs) rfl h

theorem foldLines_names {snapshot : Nat} {lo co sb nb : Int}
    (ls : List SourceMapSchema.MappingLine) {c c' : MappingContainer}
    (h : ls.foldlM (addBufferLine snapshot lo co sb nb) c = some c') :
    c'.names = c.names :=
  foldlM_option_invariant (fun s => s.names = c.names) _ ls c c'
    (fun _ _ _ _ hs hstep => (addBufferLine_names hstep).trans hs) rfl h

theorem foldLines_generated_lines {snapshot : Nat} {lo co sb nb : Int}
    (ls : List SourceMapSchema.MappingLine) {c c' : MappingContainer} (G : Int)
    (hG : ∀ line ∈ ls, ∀ seg ∈ line.segments, intAdd seg.generatedLine lo ≤ G)
    (hc : c.generated_lines = G)
    (h : ls.foldlM (addBufferLine snapshot lo co sb nb) c = some c') :
    c'.generated_lines = G :=
  foldlM_option_invariant (fun s => s.generated_lines = G) _ ls c c'
    (fun line hline _ _ hs hstep => addBufferLine_generated_lines G (hG line hline) hs hstep)
    hc h

/-! ## Lemmas on the pools -/

theorem poolIndex_of_not_mem {pool : List String} {s : String} (h : s ∉ pool) :
    poolIndex pool s = -1 := by
  simp [poolIndex, h]

theorem poolIndex_of_mem {pool : List String} {s : String} (h : s ∈ pool) :
    poolIndex pool s = (pool.indexOf s : Int) := by
  simp [poolIndex, h]

theorem poolAdd_of_not_mem {pool : List String} {s : String} (h : s ∉ pool) :
    poolAdd pool s = (pool ++ [s], (pool.length : Int)) := by
  simp [poolAdd, poolIndex_of_not_mem h]

theorem poolAdd_of_mem {pool : List String} {s : String} (h : s ∈ pool) :
    poolAdd pool s = (pool, (pool.indexOf s : Int)) := by
  have : ¬ ((pool.indexOf s : Int) < 0) := by omega
  simp [poolAdd, poolIndex_of_mem h, this]

theorem poolAddAll_fresh : ∀ (l pool : List String), l.Nodup → (∀ s ∈ l, s ∉ pool) →
    poolAddAll pool l = pool ++ l
  | [], pool, _, _ => by simp [poolAddAll]
  | s :: l, pool, hn, hd => by
    have hs : s ∉ pool := hd s (List.mem_cons_self _ _)
    have hn' := List.nodup_cons.mp hn
    have ih := poolAddAll_fresh l (pool ++ [s]) hn'.2 (by
      intro t ht
      simp only [List.mem_append, List.mem_singleton, not_or]
      refine ⟨hd t (List.mem_cons_of_mem _ ht), ?_⟩
      rintro rfl
      exact hn'.1 ht)
    unfold poolAddAll at ih ⊢
    rw [List.foldl_cons, poolAdd_of_not_mem hs, ih]
    simp

theorem foldl_addSource (l : List String) (c : MappingContainer) :
    l.foldl (fun acc s => (acc.addSource s).1) c
      = { c with sources := poolAddAll c.sources l } := by
  induction l generalizing c with
  | nil => rfl
  | cons s l ih =>
    rw [List.foldl_cons, ih]
    rfl

theorem foldl_addName (l : List String) (c : MappingContainer) :
    l.foldl (fun acc s => (acc.addName s).1) c
      = { c with names := poolAddAll c.names l } := by
  induction l generalizing c with
  | nil => rfl
  | cons s l ih =>
    rw [List.foldl_cons, ih]
    rfl

/-- What `addBufferMappings` returns, split into the line loop and the pools. -/
theorem addBufferMappings_some {c c' : MappingContainer} {map : SourceMapSchema.Map}
    {lo co : Int} (h : addBufferMappings c map lo co = some c') :
    ∃ c2, map.lines.foldlM
        (addBufferLine (c.createLinesIfUndefined (intAdd map.lineCount lo)).mapping_lines.length
          lo co c.sources.length c.names.length)
        (c.createLinesIfUndefined (intAdd map.lineCount lo)) = some c2 ∧
      c' = { c2 with sources := poolAddAll c2.sources map.sources
                     names := poolAddAll c2.names map.names } := by
  unfold addBufferMappings at h
  simp only [getSourcesCount, getNamesCount] at h
  split at h
  · cases h
  · rename_i c2 hc2
    simp only [Option.some.injEq] at h
    refine ⟨c2, hc2, ?_⟩
    rw [← h, foldl_addName, foldl_addSource]

theorem addBufferMappings_of_fold {c c2 : MappingContainer} {map : SourceMapSchema.Map}
    {lo co : Int}
    (h : map.lines.foldlM
        (addBufferLine (c.createLinesIfUndefined (intAdd map.lineCount lo)).mapping_lines.length
          lo co c.sources.length c.names.length)
        (c.createLinesIfUndefined (intAdd map.lineCount lo)) = some c2) :
    addBufferMappings c map lo co
      = some { c2 with sources := poolAddAll c2.sources map.sources
                       names := poolAddAll c2.names map.names } := by
  unfold addBufferMappings
  simp only [getSourcesCount, getNamesCount]
  rw [h]
  simp only [foldl_addName, foldl_addSource]

end SourceMapBinding

/-! ## Lemmas on sorting -/

namespace MappingLine

theorem sort_lineNumber (l : MappingLine) : l.sort.lineNumber = l.lineNumber := by
  unfold sort; split <;> rfl

theorem sort_lastColumn (l : MappingLine) : l.sort.lastColumn = l.lastColumn := by
  unfold sort; split <;> rfl

theorem sort_isSorted (l : MappingLine) : l.sort.isSorted = true := by
  unfold sort; split
  · assumption
  · rfl

theorem sort_segments_perm (l : MappingLine) : l.sort.segments.Perm l.segments := by
  unfold sort; split
  · exact List.Perm.refl _
  · exact List.perm_insertionSort colLE _

theorem mem_sort_segments {l : MappingLine} {m : Mapping} :
    m ∈ l.sort.segments ↔ m ∈ l.segments :=
  (sort_segments_perm l).mem_iff

theorem sort_segments_sorted {l : MappingLine}
    (h : l.isSorted = true → l.segments.Sorted colLE) : l.sort.segments.Sorted colLE := by
  unfold sort; split
  · exact h (by assumption)
  · exact List.sorted_insertionSort colLE _

theorem sort_segments_eq {l : MappingLine}
    (h : l.isSorted = true → l.segments.Sorted colLE) :
    l.sort.segments = l.segments.insertionSort colLE := by
  unfold sort; split
  · exact (List.Sorted.insertionSort_eq (h (by assumption))).symm
  · rfl

theorem sort_new (n : Int) : (MappingLine.new n).sort = MappingLine.new n := rfl

end MappingLine

namespace MappingContainer

theorem getElem?_eq_lineAt {c : MappingContainer} {i : Nat} {l : MappingLine}
    (h : c.mapping_lines[i]? = some l) : c.lineAt i = l := by
  simp [lineAt, h]

theorem lineAt_sort (c : MappingContainer) (i : Nat) : c.sort.lineAt i = (c.lineAt i).sort := by
  unfold lineAt sort
  simp only [List.getElem?_map]
  cases c.mapping_lines[i]? <;> rfl

theorem sort_length (c : MappingContainer) :
    c.sort.mapping_lines.length = c.mapping_lines.length := by
  simp [sort]

theorem lineAt_lineNumber {c : MappingContainer} (hc : WellFormed c) (i : Nat) :
    (c.lineAt i).lineNumber = i := by
  by_cases h : i < c.mapping_lines.length
  · exact hc.line_number i _ (lineAt_of_lt h)
  · rw [lineAt_of_le (Nat.le_of_not_lt h)]; rfl

theorem lineAt_generated_line {c : MappingContainer} (hc : WellFormed c) (i : Nat) :
    ∀ m ∈ (c.lineAt i).segments, m.generated.line = i := by
  by_cases h : i < c.mapping_lines.length
  · exact hc.generated_line i _ (lineAt_of_lt h)
  · rw [lineAt_of_le (Nat.le_of_not_lt h)]; intro m hm; cases hm

theorem lineAt_last_column {c : MappingContainer} (hc : WellFormed c) (i : Nat) :
    ∀ m ∈ (c.lineAt i).segments, m.generated.column ≤ (c.lineAt i).lastColumn := by
  by_cases h : i < c.mapping_lines.length
  · exact hc.last_column _ (List.getElem?_mem (lineAt_of_lt h))
  · rw [lineAt_of_le (Nat.le_of_not_lt h)]; intro m hm; cases hm

theorem wellFormed_of_lineAt {c : MappingContainer}
    (h1 : c.sources.Nodup) (h2 : c.names.Nodup)
    (h3 : (c.mapping_lines.length : Int) = c.generated_lines + 1)
    (h4 : ∀ i, (c.lineAt i).lineNumber = i)
    (h5 : ∀ i, ∀ m ∈ (c.lineAt i).segments, m.generated.line = i)
    (h6 : ∀ i, ∀ m ∈ (c.lineAt i).segments, m.generated.column ≤ (c.lineAt i).lastColumn) :
    WellFormed c where
  sources_nodup := h1
  names_nodup := h2
  lines_length := h3
  line_number := fun i l hl => getElem?_eq_lineAt hl ▸ h4 i
  generated_line := fun i l hl => getElem?_eq_lineAt hl ▸ h5 i
  last_column := fun l hl => by
    obtain ⟨i, _, rfl⟩ := mem_lines_iff_lineAt.mp hl
    exact h6 i

theorem wellFormed_empty : WellFormed MappingContainer.empty :=
  wellFormed_of_lineAt (by simp [empty]) (by simp [empty]) (by simp [empty])
    (fun _ => rfl) (fun _ _ hm => by cases hm) (fun _ _ hm => by cases hm)

theorem wellFormed_addMapping {c c' : MappingContainer} {g o : Position} {s n : Int}
    (hc : WellFormed c) (h : c.addMapping g o s n = some c') : WellFormed c' := by
  have h0 := addMapping_line_nonneg h
  refine wellFormed_of_lineAt ?_ ?_ ?_ ?_ ?_ ?_
  · rw [addMapping_sources h]; exact hc.sources_nodup
  · rw [addMapping_names h]; exact hc.names_nodup
  · rw [addMapping_length h, addMapping_generated_lines h]
    have := hc.lines_length
    omega
  · intro i
    rw [addMapping_lineAt h i]
    split
    · exact lineAt_lineNumber hc i
    · exact lineAt_lineNumber hc i
  · intro i m hm
    rw [addMapping_lineAt h i] at hm
    split at hm
    · rename_i hi
      simp only [MappingLine.addMapping, List.mem_append, List.mem_singleton] at hm
      rcases hm with hm | rfl
      · exact lineAt_generated_line hc i m hm
      · exact hi.symm
    · exact lineAt_generated_line hc i m hm
  · intro i m hm
    rw [addMapping_lineAt h i] at hm ⊢
    split at hm
    · rename_i hi
      rw [if_pos hi]
      simp only [MappingLine.addMapping, List.mem_append, List.mem_singleton] at hm ⊢
      rcases hm with hm | rfl
      · exact le_trans (lineAt_last_column hc i m hm) (le_max_left _ _)
      · exact le_max_right _ _
    · rename_i hi
      rw [if_neg hi]
      exact lineAt_last_column hc i m hm

theorem wellFormed_sort {c : MappingContainer} (hc : WellFormed c) : WellFormed c.sort := by
  refine wellFormed_of_lineAt hc.sources_nodup hc.names_nodup ?_ ?_ ?_ ?_
  · rw [sort_length]; exact hc.lines_length
  · intro i
    rw [lineAt_sort, MappingLine.sort_lineNumber]
    exact lineAt_lineNumber hc i
  · intro i m hm
    rw [lineAt_sort, MappingLine.mem_sort_segments] at hm
    exact lineAt_generated_line hc i m hm
  · intro i m hm
    rw [lineAt_sort] at hm ⊢
    rw [MappingLine.sort_lastColumn]
    exact lineAt_last_column hc i m (MappingLine.mem_sort_segments.mp hm)

theorem sortedFlags_sort {c : MappingContainer} (hc : SortedFlags c) : SortedFlags c.sort := by
  intro l hl _
  simp only [sort, List.mem_map] at hl
  obtain ⟨l0, hl0, rfl⟩ := hl
  exact MappingLine.sort_segments_sorted (hc l0 hl0)

end MappingContainer

/-! ## Lemmas on the round trip through the buffer -/

theorem filter_line_flatMap :
    ∀ (L : List MappingLine) (k : Nat),
      (∀ (i : Nat) (l : MappingLine), L[i]? = some l →
        ∀ m ∈ l.segments, m.generated.line = ((k + i : Nat) : Int)) →
      ∀ j : Nat,
        (L.flatMap (fun l => l.segments)).filter
            (fun m => decide ((j : Int) = m.generated.line))
          = if k ≤ j then (match L[j - k]? with
              | some l => l.segments
              | none => []) else []
  | [], k, _, j => by simp
  | l :: L, k, h, j => by
    have hl : ∀ m ∈ l.segments, m.generated.line = (k : Int) := by
      intro m hm
      have := h 0 l (by simp) m hm
      simpa using this
    have hL : ∀ (i : Nat) (l' : MappingLine), L[i]? = some l' →
        ∀ m ∈ l'.segments, m.generated.line = ((k + 1 + i : Nat) : Int) := by
      intro i l' hi m hm
      have := h (i + 1) l' (by simpa using hi) m hm
      rw [this]
      congr 1
      omega
    rw [List.flatMap_cons, List.filter_append, filter_line_flatMap L (k + 1) hL j]
    by_cases hjk : j = k
    · subst hjk
      have h1 : l.segments.filter (fun m => decide ((j : Int) = m.generated.line))
          = l.segments := by
        rw [List.filter_eq_self]
        intro m hm
        simp [hl m hm]
      rw [h1]
      simp
    · have h1 : l.segments.filter (fun m => decide ((j : Int) = m.generated.line)) = [] := by
        rw [List.filter_eq_nil_iff]
        intro m hm
        simp only [hl m hm, decide_eq_true_eq]
        omega
      rw [h1, List.nil_append]
      by_cases hlt : k ≤ j
      · have h2 : k + 1 ≤ j := by omega
        have h3 : j - k = (j - (k + 1)) + 1 := by omega
        rw [if_pos h2, if_pos hlt, h3, List.getElem?_cons_succ]
      · rw [if_neg hlt, if_neg (by omega)]

namespace SourceMapBinding

open MappingContainer

theorem mergedSegment_toSchemaMapping (m : Mapping) :
    mergedSegment 0 0 0 0 (toSchemaMapping m) = clampIndices m := by
  obtain ⟨⟨gl, gc⟩, o, s, n⟩ := m
  simp only [mergedSegment, toSchemaMapping, clampIndices, intAdd_zero]
  congr 1
  · by_cases hs : s < 0
    · rw [if_pos hs, if_neg (by omega)]
    · rw [if_neg hs, if_pos (by omega)]
  · by_cases hn : n < 0
    · rw [if_pos hn, if_neg (by omega)]
    · rw [if_neg hn, if_pos (by omega)]

theorem clampIndices_generated (m : Mapping) : (clampIndices m).generated = m.generated := rfl

theorem clampIndices_of_ge {m : Mapping} (hs : -1 ≤ m.source) (hn : -1 ≤ m.name) :
    clampIndices m = m := by
  obtain ⟨g, o, s, n⟩ := m
  simp only [clampIndices] at hs hn ⊢
  congr 1
  · split <;> omega
  · split <;> omega

theorem landing_toSchemaMapping (segs : List Mapping) (j : Nat) :
    landing 0 0 0 0 (segs.map toSchemaMapping) j
      = (segs.filter (fun m => decide ((j : Int) = m.generated.line))).map clampIndices := by
  unfold landing
  rw [List.map_map, List.filter_map]
  have h1 : mergedSegment 0 0 0 0 ∘ toSchemaMapping = clampIndices :=
    funext mergedSegment_toSchemaMapping
  rw [h1]
  rfl

theorem toBuffer_fst (c : MappingContainer) :
    (toBuffer c).1 =
      { names := c.names
        sources := c.sources
        lineCount := c.generated_lines
        lines := c.sort.mapping_lines.map
          (fun line => ⟨line.lineNumber, line.isSorted, line.segments.map toSchemaMapping⟩) } :=
  rfl

theorem toBuffer_snd (c : MappingContainer) : (toBuffer c).2 = c.sort := rfl

/-- The line records of a buffer written from a well-formed container: record
`i` carries line number `i`, a set flag, and the segments of the sorted line
`i`, each with generated line `i`. -/
theorem toBuffer_line_spec {c : MappingContainer} (hc : WellFormed c)
    {line : SourceMapSchema.MappingLine} (h : line ∈ (toBuffer c).1.lines) :
    ∃ i : Nat, i < c.mapping_lines.length ∧ line.lineNumber = i ∧ line.isSorted = true ∧
      line.segments = (c.sort.segsAt i).map toSchemaMapping ∧
      ∀ seg ∈ line.segments, seg.generatedLine = i := by
  rw [toBuffer_fst] at h
  simp only [List.mem_map] at h
  obtain ⟨l, hl, rfl⟩ := h
  obtain ⟨i, hi, rfl⟩ := mem_lines_iff_lineAt.mp hl
  rw [sort_length] at hi
  have hs := wellFormed_sort hc
  refine ⟨i, hi, lineAt_lineNumber hs i, ?_, ?_, ?_⟩
  · rw [lineAt_sort]; exact MappingLine.sort_isSorted _
  · rw [segsAt_eq_lineAt]
  · intro seg hseg
    simp only [List.mem_map] at hseg
    obtain ⟨m, hm, rfl⟩ := hseg
    exact lineAt_generated_line hs i m hm

theorem toBuffer_allSegments_landing {c : MappingContainer} (hc : WellFormed c) (j : Nat) :
    landing 0 0 0 0 (allSegments (toBuffer c).1) j = (c.sort.segsAt j).map clampIndices := by
  have hs := wellFormed_sort hc
  have h1 : allSegments (toBuffer c).1
      = (c.sort.mapping_lines.flatMap (fun l => l.segments)).map toSchemaMapping := by
    rw [toBuffer_fst]
    simp only [allSegments, List.flatMap_map, List.map_flatMap]
  rw [h1, landing_toSchemaMapping,
    filter_line_flatMap c.sort.mapping_lines 0
      (fun i l hl m hm => by simpa using hs.generated_line i l hl m hm) j]
  simp only [Nat.zero_le, if_true, Nat.sub_zero]
  rfl

end SourceMapBinding

/-! ## Lemmas on emission -/

theorem emitSegment_clampIndices (p : Int) (cur : EmitCursor) (m : Mapping) :
    emitSegment p cur (clampIndices m) = emitSegment p cur m := by
  obtain ⟨g, o, s, n⟩ := m
  simp only [emitSegment, clampIndices]
  by_cases hs : s < 0
  · have h1 : ¬ (s > -1) := by omega
    have h2 : ¬ ((-1 : Int) > -1) := by omega
    simp only [if_pos hs, if_neg h1, if_neg h2]
  · have h1 : s > -1 := by omega
    simp only [if_neg hs, if_pos h1]
    by_cases hn : n < 0
    · have h2 : ¬ (n > -1) := by omega
      have h3 : ¬ ((-1 : Int) > -1) := by omega
      simp only [if_pos hn, if_neg h2, if_neg h3]
    · simp only [if_neg hn]

theorem emitSegments_clampIndices :
    ∀ (ms : List Mapping) (p : Int) (cur : EmitCursor) (first : Bool),
      emitSegments p cur first (ms.map clampIndices) = emitSegments p cur first ms
  | [], _, _, _ => rfl
  | m :: ms, p, cur, first => by
    simp only [List.map_cons, emitSegments, emitSegment_clampIndices,
      emitSegments_clampIndices ms]
    rfl

theorem emitLines_clampIndices :
    ∀ (ls : List (List Mapping)) (cur : EmitCursor) (first : Bool),
      emitLines cur first (ls.map (fun l => l.map clampIndices)) = emitLines cur first ls
  | [], _, _ => rfl
  | l :: ls, cur, first => by
    simp only [List.map_cons, emitLines, emitSegments_clampIndices,
      emitLines_clampIndices ls]

/-! ## C1: round trip through the buffer -/

namespace SourceMapBinding

open MappingContainer

theorem toBuffer_inBounds {src : MappingContainer} (hs : WellFormed src)
    (c : MappingContainer) {lo : Int} (hlo : 0 ≤ lo)
    (hadd : ∀ x : Int, -1 ≤ x → x ≤ src.generated_lines → intAdd x lo = x + lo)
    {line : SourceMapSchema.MappingLine} (h : line ∈ (toBuffer src).1.lines) :
    0 ≤ line.lineNumber ∧
    line.lineNumber
      < ((c.createLinesIfUndefined
            (intAdd (toBuffer src).1.lineCount lo)).mapping_lines.length : Nat) ∧
    ∀ seg ∈ line.segments, 0 ≤ intAdd seg.generatedLine lo := by
  obtain ⟨i, hi, hn, _, _, hseg⟩ := toBuffer_line_spec hs h
  have hlen := hs.lines_length
  refine ⟨by omega, ?_, ?_⟩
  · rw [createLines_length, toBuffer_fst]
    simp only
    rw [hadd src.generated_lines (by omega) (Int.le_refl _)]
    omega
  · intro seg hmem
    rw [hseg seg hmem, hadd (i : Int) (by omega) (by omega)]
    omega

theorem intAdd_zero_exact (x : Int) : intAdd x 0 = x + 0 :=
  (intAdd_zero x).trans (Int.add_zero x).symm

theorem segsAt_pools (c : MappingContainer) (srcs nms : List String) (j : Nat) :
    ({ c with sources := srcs, names := nms } : MappingContainer).segsAt j = c.segsAt j := rfl

theorem toVLQMappings_congr {c d : MappingContainer}
    (hg : d.generated_lines = c.generated_lines)
    (hseg : ∀ j, d.segsAt j = (c.segsAt j).map clampIndices) :
    d.toVLQMappings = c.toVLQMappings := by
  unfold toVLQMappings
  have : (List.range (d.generated_lines + 1).toNat).map d.segsAt
      = ((List.range (c.generated_lines + 1).toNat).map c.segsAt).map
          (fun l => l.map clampIndices) := by
    rw [hg, List.map_map]
    exact List.map_congr_left (fun j _ => hseg j)
  rw [this, emitLines_clampIndices]

/-- C1, as amended: writing a well-formed container with `toBuffer` and merging
the buffer at offsets zero into an empty container succeeds; the result has
the pools of the original, on every line the segments of the sorted original
with negative source and name indices stored as minus one (hence the very
same segments when no index is below minus one), and the `stringify` output
of the original as `toBuffer` leaves it. -/
theorem toBuffer_addBufferMappings_roundtrip (c : MappingContainer) (hc : WellFormed c) :
    ∃ d, addBufferMappings MappingContainer.empty (toBuffer c).1 0 0 = some d ∧
      d.sources = c.sources ∧ d.names = c.names ∧
      (∀ j, d.segsAt j = ((toBuffer c).2.segsAt j).map clampIndices) ∧
      ((∀ j, ∀ m ∈ (toBuffer c).2.segsAt j, -1 ≤ m.source ∧ -1 ≤ m.name) →
        ∀ j, d.segsAt j = (toBuffer c).2.segsAt j) ∧
      stringify d = stringify (toBuffer c).2 := by
  have hs := wellFormed_sort hc
  obtain ⟨c2, hc2⟩ := foldLines_isSome
    (MappingContainer.empty.createLinesIfUndefined
      (intAdd (toBuffer c).1.lineCount 0)).mapping_lines.length
    0 0 (MappingContainer.empty.sources.length : Nat) (MappingContainer.empty.names.length : Nat)
    (toBuffer c).1.lines
    (MappingContainer.empty.createLinesIfUndefined (intAdd (toBuffer c).1.lineCount 0))
    (fun line hline => toBuffer_inBounds hc MappingContainer.empty (Int.le_refl 0)
      (fun x _ _ => intAdd_zero_exact x) hline)
  have hsrc : c2.sources = [] := foldLines_sources _ hc2
  have hnm : c2.names = [] := foldLines_names _ hc2
  have hlen := hc.lines_length
  have hgl : c2.generated_lines = c.generated_lines := by
    refine foldLines_generated_lines _ c.generated_lines ?_ ?_ hc2
    · intro line hline seg hseg
      obtain ⟨i, hi, _, _, _, hgen⟩ := toBuffer_line_spec hc hline
      rw [intAdd_zero, hgen seg hseg]
      omega
    · simp only [createLinesIfUndefined, toBuffer_fst, empty, intAdd_zero]
      omega
  have hseg : ∀ j, c2.segsAt j = (c.sort.segsAt j).map clampIndices := by
    intro j
    have := foldLines_segsAt _ hc2 j
    rw [createLines_segsAt] at this
    rw [this]
    have h0 : MappingContainer.empty.segsAt j = [] := by simp [segsAt, empty]
    rw [h0, List.nil_append]
    exact toBuffer_allSegments_landing hc j
  have hd1 : poolAddAll c2.sources (toBuffer c).1.sources = c.sources := by
    rw [hsrc, toBuffer_fst]
    exact (poolAddAll_fresh _ _ hc.sources_nodup (fun _ _ h => by cases h)).trans
      (List.nil_append _)
  have hd2 : poolAddAll c2.names (toBuffer c).1.names = c.names := by
    rw [hnm, toBuffer_fst]
    exact (poolAddAll_fresh _ _ hc.names_nodup (fun _ _ h => by cases h)).trans
      (List.nil_append _)
  refine ⟨_, addBufferMappings_of_fold hc2, hd1, hd2, ?_, ?_, ?_⟩
  · intro j
    rw [segsAt_pools, toBuffer_snd]
    exact hseg j
  · intro hge j
    rw [segsAt_pools, toBuffer_snd, hseg j]
    rw [toBuffer_snd] at hge
    conv_rhs => rw [← List.map_id (c.sort.segsAt j)]
    exact List.map_congr_left (fun m hm => clampIndices_of_ge (hge j m hm).1 (hge j m hm).2)
  · simp only [stringify, toBuffer_snd]
    rw [hd1, hd2]
    congr 1
    exact toVLQMappings_congr hgl (fun j => hseg j)

theorem wellFormed_negativeSourceSample : WellFormed negativeSourceSample :=
  wellFormed_addMapping wellFormed_empty
    (show MappingContainer.empty.addMapping ⟨0, 0⟩ ⟨0, 0⟩ (-2) (-1) = some negativeSourceSample
      from by decide)

theorem wellFormed_unsortedSample : WellFormed unsortedSample := by
  have h0 : WellFormed (⟨["a.js"], [], [], 0, -1, 0⟩ : MappingContainer) :=
    { wellFormed_empty with sources_nodup := by decide }
  have h1 : WellFormed
      (⟨["a.js"], [], [⟨0, [⟨⟨0, 5⟩, ⟨0, 0⟩, 0, -1⟩], true, 5⟩], 5, 0, 1⟩ : MappingContainer) :=
    wellFormed_addMapping h0
      (show (⟨["a.js"], [], [], 0, -1, 0⟩ : MappingContainer).addMapping ⟨0, 5⟩ ⟨0, 0⟩ 0 (-1)
        = some ⟨["a.js"], [], [⟨0, [⟨⟨0, 5⟩, ⟨0, 0⟩, 0, -1⟩], true, 5⟩], 5, 0, 1⟩ from by decide)
  exact wellFormed_addMapping h1
    (show (⟨["a.js"], [], [⟨0, [⟨⟨0, 5⟩, ⟨0, 0⟩, 0, -1⟩], true, 5⟩], 5, 0, 1⟩ :
        MappingContainer).addMapping ⟨0, 3⟩ ⟨0, 1⟩ 0 (-1) = some unsortedSample from by decide)

/-- Witness of C1: the amended round trip at the empty container, which gives
the `stringify` output with empty mappings and pools, and at a container with
an unsorted line. -/
theorem toBuffer_addBufferMappings_roundtrip_witness :
    (WellFormed MappingContainer.empty ∧
      (addBufferMappings MappingContainer.empty (toBuffer MappingContainer.empty).1 0 0).map
          stringify = some ⟨"", [], []⟩ ∧
      ∃ d, addBufferMappings MappingContainer.empty (toBuffer MappingContainer.empty).1 0 0
            = some d ∧
        d.sources = MappingContainer.empty.sources ∧ d.names = MappingContainer.empty.names ∧
        (∀ j, d.segsAt j
          = ((toBuffer MappingContainer.empty).2.segsAt j).map clampIndices) ∧
        ((∀ j, ∀ m ∈ (toBuffer MappingContainer.empty).2.segsAt j,
            -1 ≤ m.source ∧ -1 ≤ m.name) →
          ∀ j, d.segsAt j = (toBuffer MappingContainer.empty).2.segsAt j) ∧
        stringify d = stringify (toBuffer MappingContainer.empty).2) ∧
    (WellFormed unsortedSample ∧
      (addBufferMappings MappingContainer.empty (toBuffer unsortedSample).1 0 0).map
          stringify = some ⟨"GAAC,EAAD", ["a.js"], []⟩ ∧
      stringify (toBuffer unsortedSample).2 = ⟨"GAAC,EAAD", ["a.js"], []⟩) :=
  ⟨⟨wellFormed_empty, by decide,
      toBuffer_addBufferMappings_roundtrip MappingContainer.empty wellFormed_empty⟩,
    wellFormed_unsortedSample, by decide, by decide⟩

/-- Counterexample to C1 as stated: `add_raw_mappings("AFAA", [], [])` on the
empty container stores one segment with source index minus two; after
`toBuffer` and the merge into an empty container the segment stored on line 0
has source index minus one, so the per-line segment sequences differ. -/
theorem roundtrip_negative_source_counterexample :
    addRawMappings MappingContainer.empty "AFAA" [] [] 0 0 = .ok negativeSourceSample ∧
    (toBuffer negativeSourceSample).2.segsAt 0 = [⟨⟨0, 0⟩, ⟨0, 0⟩, -2, -1⟩] ∧
    (addBufferMappings MappingContainer.empty (toBuffer negativeSourceSample).1 0 0).map
        (fun d => d.segsAt 0) = some [⟨⟨0, 0⟩, ⟨0, 0⟩, -1, -1⟩] ∧
    ¬ ∀ d, addBufferMappings MappingContainer.empty (toBuffer negativeSourceSample).1 0 0
          = some d →
        ∀ j, d.segsAt j = (toBuffer negativeSourceSample).2.segsAt j := by
  refine ⟨by decide, by decide, by decide, ?_⟩
  intro h
  have h1 := h ⟨[], [], [⟨0, [⟨⟨0, 0⟩, ⟨0, 0⟩, -1, -1⟩], true, 0⟩], 0, 0, 1⟩ (by decide) 0
  revert h1
  decide

/-! ## C2: the segments handed to `addMapping` -/

theorem mem_allSegments {map : SourceMapSchema.Map} {seg : SourceMapSchema.Mapping} :
    seg ∈ allSegments map ↔ ∃ line ∈ map.lines, seg ∈ line.segments := by
  simp [allSegments, List.mem_flatMap]

theorem foldSegments_bounds {lo co sb nb : Int} :
    ∀ (ss : List SourceMapSchema.Mapping) {c c' : MappingContainer},
      ss.foldlM (addBufferSegment lo co sb nb) c = some c' →
      ∀ seg ∈ ss, 0 ≤ intAdd seg.generatedLine lo
  | [], _, _, _, _, hseg => by cases hseg
  | s0 :: ss, c, c', h, seg, hseg => by
    simp only [List.foldlM_cons, Option.bind_eq_bind, Option.bind_eq_some] at h
    obtain ⟨c1, h1, h2⟩ := h
    rcases List.mem_cons.mp hseg with rfl | hmem
    · exact addMapping_line_nonneg h1
    · exact foldSegments_bounds ss h2 seg hmem

theorem foldLines_bounds {snapshot : Nat} {lo co sb nb : Int} :
    ∀ (ls : List SourceMapSchema.MappingLine) {c c' : MappingContainer},
      ls.foldlM (addBufferLine snapshot lo co sb nb) c = some c' →
      ∀ line ∈ ls, 0 ≤ line.lineNumber ∧ line.lineNumber < (snapshot : Int) ∧
        ∀ seg ∈ line.segments, 0 ≤ intAdd seg.generatedLine lo
  | [], _, _, _, _, hline => by cases hline
  | l0 :: ls, c, c', h, line, hline => by
    simp only [List.foldlM_cons, Option.bind_eq_bind, Option.bind_eq_some] at h
    obtain ⟨c1, h1, h2⟩ := h
    rcases List.mem_cons.mp hline with rfl | hmem
    · obtain ⟨hn0, hn1, c0, hc0, _⟩ := addBufferLine_some h1
      exact ⟨hn0, hn1, foldSegments_bounds _ hc0⟩
    · exact foldLines_bounds ls h2 line hmem

theorem addBufferMappings_isSome_iff (c : MappingContainer) (map : SourceMapSchema.Map)
    (lo co : Int) :
    (∃ c', addBufferMappings c map lo co = some c') ↔ MergeDefined c map lo := by
  constructor
  · rintro ⟨c', h⟩
    obtain ⟨c2, hc2, _⟩ := addBufferMappings_some h
    exact foldLines_bounds _ hc2
  · intro h
    obtain ⟨c2, hc2⟩ := foldLines_isSome
      (c.createLinesIfUndefined (intAdd map.lineCount lo)).mapping_lines.length
      lo co c.sources.length c.names.length map.lines
      (c.createLinesIfUndefined (intAdd map.lineCount lo)) h
    exact ⟨_, addBufferMappings_of_fold hc2⟩

theorem addBufferMappings_segsAt {c c' : MappingContainer} {map : SourceMapSchema.Map}
    {lo co : Int} (h : addBufferMappings c map lo co = some c') (j : Nat) :
    c'.segsAt j = c.segsAt j ++ landing lo co c.sources.length c.names.length (allSegments map) j := by
  obtain ⟨c2, hc2, rfl⟩ := addBufferMappings_some h
  rw [segsAt_pools, foldLines_segsAt _ hc2 j, createLines_segsAt]
  rfl

theorem mergedSegment_eq (lo co sb nb : Int) (seg : SourceMapSchema.Mapping) :
    mergedSegment lo co sb nb seg =
      { generated := ⟨intAdd seg.generatedLine lo, intAdd seg.generatedColumn co⟩
        original := ⟨seg.originalLine, seg.originalColumn⟩
        source := if 0 ≤ seg.source then intAdd seg.source sb else -1
        name := if 0 ≤ seg.name then intAdd seg.name nb else -1 } := by
  have hs : (if seg.source > -1 then intAdd seg.source sb else -1)
      = (if 0 ≤ seg.source then intAdd seg.source sb else -1) := by
    split_ifs <;> first | rfl | omega
  have hn : (if seg.name > -1 then intAdd seg.name nb else -1)
      = (if 0 ≤ seg.name then intAdd seg.name nb else -1) := by
    split_ifs <;> first | rfl | omega
  simp only [mergedSegment, hs, hn]

theorem mergedSegment_exact {lo co sb nb : Int} {seg : SourceMapSchema.Mapping}
    (h : SumsFit lo co sb nb seg) :
    mergedSegment lo co sb nb seg =
      { generated := ⟨seg.generatedLine + lo, seg.generatedColumn + co⟩
        original := ⟨seg.originalLine, seg.originalColumn⟩
        source := if 0 ≤ seg.source then seg.source + sb else -1
        name := if 0 ≤ seg.name then seg.name + nb else -1 } := by
  obtain ⟨h1, h2, h3, h4⟩ := h
  have hs : (if 0 ≤ seg.source then intAdd seg.source sb else -1)
      = (if 0 ≤ seg.source then seg.source + sb else -1) := by
    split_ifs with h0
    · exact intAdd_of_inInt32 (h3 h0)
    · rfl
  have hn : (if 0 ≤ seg.name then intAdd seg.name nb else -1)
      = (if 0 ≤ seg.name then seg.name + nb else -1) := by
    split_ifs with h0
    · exact intAdd_of_inInt32 (h4 h0)
    · rfl
  rw [mergedSegment_eq, intAdd_of_inInt32 h1, intAdd_of_inInt32 h2, hs, hn]

/-- C2, as amended: `addBufferMappings` is defined exactly when every vector
access is in range, and then each container line `j` holds its previous
segments followed by, for each buffer segment in document order whose shifted
generated line is `j`, the segment with generated position shifted by the
line and column offsets, original position unchanged, and source and name
index shifted by the pool counts read before the merge when not negative,
minus one otherwise, every sum being the 32-bit `int` sum; when the sums of
every segment fit in `int` these are the exact sums; the lines hold the same
segments as after calling `addMapping` on these segments one by one in
document order. -/
theorem addBufferMappings_passes_shifted_segments (c : MappingContainer)
    (map : SourceMapSchema.Map) (lo co : Int) :
    ((∃ c', addBufferMappings c map lo co = some c') ↔ MergeDefined c map lo) ∧
    ∀ c', addBufferMappings c map lo co = some c' →
      (∀ j : Nat, c'.segsAt j = c.segsAt j ++
        ((allSegments map).map (fun (seg : SourceMapSchema.Mapping) =>
          ({ generated := ⟨intAdd seg.generatedLine lo, intAdd seg.generatedColumn co⟩
             original := ⟨seg.originalLine, seg.originalColumn⟩
             source := if 0 ≤ seg.source then intAdd seg.source c.getSourcesCount else -1
             name := if 0 ≤ seg.name then intAdd seg.name c.getNamesCount else -1 } :
            Mapping))).filter
          (fun m => decide (m.generated.line = (j : Int)))) ∧
      ((∀ seg ∈ allSegments map, SumsFit lo co c.getSourcesCount c.getNamesCount seg) →
        ∀ j : Nat, c'.segsAt j = c.segsAt j ++
          ((allSegments map).map (fun (seg : SourceMapSchema.Mapping) =>
            ({ generated := ⟨seg.generatedLine + lo, seg.generatedColumn + co⟩
               original := ⟨seg.originalLine, seg.originalColumn⟩
               source := if 0 ≤ seg.source then seg.source + c.getSourcesCount else -1
               name := if 0 ≤ seg.name then seg.name + c.getNamesCount else -1 } :
              Mapping))).filter
            (fun m => decide (m.generated.line = (j : Int)))) ∧
      ∃ c2, (allSegments map).foldlM
          (fun (s : MappingContainer) (seg : SourceMapSchema.Mapping) =>
            s.addMapping ⟨intAdd seg.generatedLine lo, intAdd seg.generatedColumn co⟩
              ⟨seg.originalLine, seg.originalColumn⟩
              (if seg.source > -1 then intAdd seg.source c.getSourcesCount else -1)
              (if seg.name > -1 then intAdd seg.name c.getNamesCount else -1))
          (c.createLinesIfUndefined (intAdd map.lineCount lo)) = some c2 ∧
        ∀ j : Nat, c'.segsAt j = c2.segsAt j := by
  refine ⟨addBufferMappings_isSome_iff c map lo co, ?_⟩
  intro c' h
  refine ⟨?_, ?_, ?_⟩
  · intro j
    rw [addBufferMappings_segsAt h j]
    congr 1
    unfold landing
    rw [List.map_congr_left
      (fun seg _ => mergedSegment_eq lo co c.sources.length c.names.length seg)]
    apply List.filter_congr
    intro m _
    simp only [decide_eq_decide]
    exact eq_comm
  · intro hfit j
    rw [addBufferMappings_segsAt h j]
    congr 1
    unfold landing
    have hmap : List.map (mergedSegment lo co c.sources.length c.names.length)
          (allSegments map)
        = List.map (fun (seg : SourceMapSchema.Mapping) =>
            (⟨⟨seg.generatedLine + lo, seg.generatedColumn + co⟩,
              ⟨seg.originalLine, seg.originalColumn⟩,
              if 0 ≤ seg.source then seg.source + (c.sources.length : Int) else -1,
              if 0 ≤ seg.name then seg.name + (c.names.length : Int) else -1⟩ : Mapping))
          (allSegments map) :=
      List.map_congr_left (fun seg hseg => mergedSegment_exact (hfit seg hseg))
    rw [hmap]
    apply List.filter_congr
    intro m _
    simp only [decide_eq_decide]
    exact eq_comm
  · have hdef := (addBufferMappings_isSome_iff c map lo co).mp ⟨c', h⟩
    obtain ⟨c2, hc2⟩ := foldSegments_isSome lo co c.sources.length c.names.length
      (allSegments map) (c.createLinesIfUndefined (intAdd map.lineCount lo))
      (fun seg hseg => by
        obtain ⟨line, hline, hmem⟩ := mem_allSegments.mp hseg
        exact (hdef line hline).2.2 seg hmem)
    refine ⟨c2, hc2, ?_⟩
    intro j
    rw [addBufferMappings_segsAt h j, foldSegments_segsAt _ hc2 j, createLines_segsAt]

/-- Counterexample to C2 as stated: the container with one source in its pool
merged at column offset 1 with a buffer whose segment has generated column
2147483647 and source index 2147483647: the sums at SourceMap.cpp lines 107
and 110 are `int` sums, so the segment is stored with generated column and
source index minus 2147483648, where the claim's formula gives 2147483648. -/
theorem addBufferMappings_int_sum_counterexample :
    (addBufferMappings oneSourceSample overflowBuffer 0 1).map (fun d => d.segsAt 0)
      = some [⟨⟨0, -2147483648⟩, ⟨0, 0⟩, -2147483648, -1⟩] ∧
    (allSegments overflowBuffer).map (fun (seg : SourceMapSchema.Mapping) =>
        ({ generated := ⟨seg.generatedLine + 0, seg.generatedColumn + 1⟩
           original := ⟨seg.originalLine, seg.originalColumn⟩
           source := if 0 ≤ seg.source then seg.source + oneSourceSample.getSourcesCount
             else -1
           name := if 0 ≤ seg.name then seg.name + oneSourceSample.getNamesCount else -1 } :
          Mapping))
      = [⟨⟨0, 2147483648⟩, ⟨0, 0⟩, 2147483648, -1⟩] ∧
    ¬ ∀ c', addBufferMappings oneSourceSample overflowBuffer 0 1 = some c' →
        ∀ j : Nat, c'.segsAt j = oneSourceSample.segsAt j ++
          ((allSegments overflowBuffer).map (fun (seg : SourceMapSchema.Mapping) =>
            ({ generated := ⟨seg.generatedLine + 0, seg.generatedColumn + 1⟩
               original := ⟨seg.originalLine, seg.originalColumn⟩
               source := if 0 ≤ seg.source
                 then seg.source + oneSourceSample.getSourcesCount else -1
               name := if 0 ≤ seg.name
                 then seg.name + oneSourceSample.getNamesCount else -1 } :
              Mapping))).filter
            (fun m => decide (m.generated.line = (j : Int))) := by
  refine ⟨by decide, by decide, ?_⟩
  intro h
  have h1 := h ⟨["a.js"], [],
    [⟨0, [⟨⟨0, -2147483648⟩, ⟨0, 0⟩, -2147483648, -1⟩], true, 0⟩], 0, 0, 1⟩
    (by decide) 0
  revert h1
  decide

/-! ## C3: the flag is copied onto the line at the record's own number -/

/-- C3, evaluation at the failing input: merging the buffer with one record
(line number 0, flag unset, one segment) at line offset 1 into the empty
container puts the segment on line 1, which was empty and keeps its flag set,
and clears the flag of line 0, which receives nothing. -/
theorem addBufferMappings_flag_ignores_lineOffset :
    (addBufferMappings MappingContainer.empty unsortedRecordBuffer 1 0).map
        (fun d => (d.segsAt 0, d.sortedAt 0, d.segsAt 1, d.sortedAt 1))
      = some ([], some false, [⟨⟨1, 0⟩, ⟨-1, -1⟩, -1, -1⟩], some true) := by
  decide

/-! ## C4: pool offsets without string collisions -/

theorem mem_landing {lo co sb nb : Int} {ss : List SourceMapSchema.Mapping}
    {seg : SourceMapSchema.Mapping} (h : seg ∈ ss) (h0 : 0 ≤ intAdd seg.generatedLine lo) :
    mergedSegment lo co sb nb seg
      ∈ landing lo co sb nb ss (intAdd seg.generatedLine lo).toNat := by
  unfold landing
  rw [List.mem_filter]
  refine ⟨List.mem_map_of_mem _ h, ?_⟩
  simp only [mergedSegment, decide_eq_true_eq]
  omega

theorem poolIndex_append_head {pool rest : List String} {s : String} (h : s ∉ pool) :
    poolIndex (pool ++ s :: rest) s = (pool.length : Int) := by
  rw [poolIndex_of_mem (by simp), List.indexOf_append_of_not_mem h, List.indexOf_cons_self]
  simp

theorem getElem?_append_offset (pool l : List String) (i : Nat) :
    (pool ++ l)[pool.length + i]? = l[i]? := by
  rw [List.getElem?_append_right (Nat.le_add_right _ _)]
  simp

/-- C4: when the merge is defined and the buffer's sources are duplicate-free
and disjoint from the container's sources pool (likewise names), the pools
after the merge are the old pools followed by the buffer's; the first incoming
source (name) is stored at the previous count; for every merged segment with
buffer source (name) index `i` not negative, the pool holds at index previous
count plus `i` the buffer's string number `i`; and the segment is stored on
its target line with the arguments of the merge, its source (name) index
being previous count plus `i` whenever that sum fits in `int`. -/
theorem addBufferMappings_fresh_pools (c : MappingContainer) (map : SourceMapSchema.Map)
    (lo co : Int) (hdef : MergeDefined c map lo)
    (hs : map.sources.Nodup) (hsd : ∀ s ∈ map.sources, s ∉ c.sources)
    (hn : map.names.Nodup) (hnd : ∀ s ∈ map.names, s ∉ c.names) :
    ∃ c', addBufferMappings c map lo co = some c' ∧
      c'.sources = c.sources ++ map.sources ∧ c'.names = c.names ++ map.names ∧
      (∀ s, map.sources.head? = some s → c'.getSourceIndex s = c.getSourcesCount) ∧
      (∀ s, map.names.head? = some s → c'.getNameIndex s = c.getNamesCount) ∧
      (∀ i : Nat, c'.sources[c.sources.length + i]? = map.sources[i]?) ∧
      (∀ i : Nat, c'.names[c.names.length + i]? = map.names[i]?) ∧
      ∀ seg ∈ allSegments map,
        (0 ≤ seg.source →
          c'.sources[c.sources.length + seg.source.toNat]? = map.sources[seg.source.toNat]?) ∧
        (0 ≤ seg.name →
          c'.names[c.names.length + seg.name.toNat]? = map.names[seg.name.toNat]?) ∧
        ∃ m ∈ c'.segsAt (intAdd seg.generatedLine lo).toNat,
          m = mergedSegment lo co c.getSourcesCount c.getNamesCount seg ∧
          (0 ≤ seg.source → inInt32 (seg.source + c.getSourcesCount) →
            m.source = c.getSourcesCount + seg.source ∧
            c'.sources[m.source.toNat]? = map.sources[seg.source.toNat]?) ∧
          (0 ≤ seg.name → inInt32 (seg.name + c.getNamesCount) →
            m.name = c.getNamesCount + seg.name ∧
            c'.names[m.name.toNat]? = map.names[seg.name.toNat]?) := by
  obtain ⟨c', h⟩ := (addBufferMappings_isSome_iff c map lo co).mpr hdef
  obtain ⟨c2, hc2, hc'⟩ := addBufferMappings_some h
  have h2s : c2.sources = c.sources := (foldLines_sources _ hc2).trans rfl
  have h2n : c2.names = c.names := (foldLines_names _ hc2).trans rfl
  have hsrc : c'.sources = c.sources ++ map.sources := by
    rw [hc']
    simp only [h2s]
    exact poolAddAll_fresh _ _ hs hsd
  have hnm : c'.names = c.names ++ map.names := by
    rw [hc']
    simp only [h2n]
    exact poolAddAll_fresh _ _ hn hnd
  refine ⟨c', h, hsrc, hnm, ?_, ?_, ?_, ?_, ?_⟩
  · intro s hhead
    cases hm : map.sources with
    | nil => rw [hm] at hhead; cases hhead
    | cons t rest =>
      rw [hm] at hhead
      simp only [List.head?_cons, Option.some.injEq] at hhead
      subst hhead
      rw [getSourceIndex, hsrc, hm, getSourcesCount]
      exact poolIndex_append_head (hsd t (by rw [hm]; exact List.mem_cons_self _ _))
  · intro s hhead
    cases hm : map.names with
    | nil => rw [hm] at hhead; cases hhead
    | cons t rest =>
      rw [hm] at hhead
      simp only [List.head?_cons, Option.some.injEq] at hhead
      subst hhead
      rw [getNameIndex, hnm, hm, getNamesCount]
      exact poolIndex_append_head (hnd t (by rw [hm]; exact List.mem_cons_self _ _))
  · intro i
    rw [hsrc]
    exact getElem?_append_offset _ _ i
  · intro i
    rw [hnm]
    exact getElem?_append_offset _ _ i
  · intro seg hseg
    obtain ⟨line, hline, hmem⟩ := mem_allSegments.mp hseg
    have h0 : 0 ≤ intAdd seg.generatedLine lo := (hdef line hline).2.2 seg hmem
    refine ⟨fun _ => ?_, fun _ => ?_,
      mergedSegment lo co c.sources.length c.names.length seg, ?_, rfl, ?_, ?_⟩
    · rw [hsrc]
      exact getElem?_append_offset _ _ _
    · rw [hnm]
      exact getElem?_append_offset _ _ _
    · rw [addBufferMappings_segsAt h]
      exact List.mem_append_right _ (mem_landing hseg h0)
    · intro hge hfit
      have hm : (mergedSegment lo co c.sources.length c.names.length seg).source
          = (c.sources.length : Int) + seg.source := by
        have hadd : intAdd seg.source (c.sources.length : Int)
            = seg.source + (c.sources.length : Int) := intAdd_of_inInt32 hfit
        simp only [mergedSegment]
        rw [if_pos (by omega), hadd]
        omega
      refine ⟨hm, ?_⟩
      rw [hm, hsrc]
      have : ((c.sources.length : Int) + seg.source).toNat
          = c.sources.length + seg.source.toNat := by omega
      rw [this]
      exact getElem?_append_offset _ _ _
    · intro hge hfit
      have hm : (mergedSegment lo co c.sources.length c.names.length seg).name
          = (c.names.length : Int) + seg.name := by
        have hadd : intAdd seg.name (c.names.length : Int)
            = seg.name + (c.names.length : Int) := intAdd_of_inInt32 hfit
        simp only [mergedSegment]
        rw [if_pos (by omega), hadd]
        omega
      refine ⟨hm, ?_⟩
      rw [hm, hnm]
      have : ((c.names.length : Int) + seg.name).toNat
          = c.names.length + seg.name.toNat := by omega
      rw [this]
      exact getElem?_append_offset _ _ _

theorem mergeDefined_oneSourceSample (map : SourceMapSchema.Map)
    (h : map.lineCount = 0 ∧ ∀ line ∈ map.lines, line.lineNumber = 0 ∧
      ∀ seg ∈ line.segments, seg.generatedLine = 0) :
    MergeDefined oneSourceSample map 0 := by
  intro line hline
  obtain ⟨h0, hl⟩ := h
  obtain ⟨hn, hseg⟩ := hl line hline
  refine ⟨by omega, ?_, ?_⟩
  · rw [createLines_length, h0, hn]
    decide
  · intro seg hmem
    rw [hseg seg hmem]
    decide

/-- Witness of C4: the container with pool `["a.js"]` merged with a buffer with
pools `["b.js"]` and `["x"]`; the segment is stored with source index 1 and
name index 0. -/
theorem addBufferMappings_fresh_pools_witness :
    (addBufferMappings oneSourceSample freshPoolBuffer 0 0).map
        (fun d => (d.sources, d.names, d.segsAt 0))
      = some (["a.js", "b.js"], ["x"], [⟨⟨0, 0⟩, ⟨0, 0⟩, 1, 0⟩]) ∧
    ∃ c', addBufferMappings oneSourceSample freshPoolBuffer 0 0 = some c' ∧
      c'.sources = oneSourceSample.sources ++ freshPoolBuffer.sources ∧
      c'.names = oneSourceSample.names ++ freshPoolBuffer.names ∧
      (∀ s, freshPoolBuffer.sources.head? = some s →
        c'.getSourceIndex s = oneSourceSample.getSourcesCount) ∧
      (∀ s, freshPoolBuffer.names.head? = some s →
        c'.getNameIndex s = oneSourceSample.getNamesCount) ∧
      (∀ i : Nat, c'.sources[oneSourceSample.sources.length + i]?
        = freshPoolBuffer.sources[i]?) ∧
      (∀ i : Nat, c'.names[oneSourceSample.names.length + i]? = freshPoolBuffer.names[i]?) ∧
      ∀ seg ∈ allSegments freshPoolBuffer,
        (0 ≤ seg.source →
          c'.sources[oneSourceSample.sources.length + seg.source.toNat]?
            = freshPoolBuffer.sources[seg.source.toNat]?) ∧
        (0 ≤ seg.name →
          c'.names[oneSourceSample.names.length + seg.name.toNat]?
            = freshPoolBuffer.names[seg.name.toNat]?) ∧
        ∃ m ∈ c'.segsAt (intAdd seg.generatedLine 0).toNat,
          m = mergedSegment 0 0 oneSourceSample.getSourcesCount
            oneSourceSample.getNamesCount seg ∧
          (0 ≤ seg.source → inInt32 (seg.source + oneSourceSample.getSourcesCount) →
            m.source = oneSourceSample.getSourcesCount + seg.source ∧
            c'.sources[m.source.toNat]? = freshPoolBuffer.sources[seg.source.toNat]?) ∧
          (0 ≤ seg.name → inInt32 (seg.name + oneSourceSample.getNamesCount) →
            m.name = oneSourceSample.getNamesCount + seg.name ∧
            c'.names[m.name.toNat]? = freshPoolBuffer.names[seg.name.toNat]?) :=
  ⟨by decide,
    addBufferMappings_fresh_pools oneSourceSample freshPoolBuffer 0 0
      (mergeDefined_oneSourceSample freshPoolBuffer (by decide))
      (by decide) (by decide) (by decide) (by decide)⟩

end SourceMapBinding

/-! ## C5: the pool offsets of `addRawMappings` -/

namespace MappingContainer

theorem createLines_sources (c : MappingContainer) (n : Int) :
    (c.createLinesIfUndefined n).sources = c.sources := rfl

theorem createLines_names (c : MappingContainer) (n : Int) :
    (c.createLinesIfUndefined n).names = c.names := rfl

theorem foldEvents_isSome (evs : List VlqEvent) (c : MappingContainer)
    (h : ∀ ev ∈ evs, 0 ≤ ev.generatedLine) : ∃ c', evs.foldlM applyEvent c = some c' :=
  foldlM_option_isSome _ evs c (fun ev hev s => by
    cases ev with
    | segment g o s' n => exact addMapping_isSome (h _ hev)
    | line n => exact ⟨_, rfl⟩)

end MappingContainer

namespace SourceMapBinding

open MappingContainer

theorem addNames_fst : ∀ (names : List NapiValue) (c : MappingContainer),
    (_addNames c names).1 = { c with names := poolAddAll c.names (names.map napiString) }
  | [], _ => rfl
  | v :: rest, c => by
    cases v with
    | string s => simp only [_addNames, addNames_fst rest]; rfl
    | other => simp only [_addNames, addNames_fst rest]; rfl

end SourceMapBinding

/-! ## C6: the original position written by `getMap` -/

namespace SourceMapBinding

open MappingContainer

/-- C6, evaluation at the failing input: after `add_raw_mappings("AACA",
["a.js"], [])` the only segment has original line 1 and original column 0;
the mapping object `getMap` builds for it has `original.line` 0, the column. -/
theorem getMap_original_line_is_column :
    ∃ c, addRawMappings MappingContainer.empty "AACA" [.string "a.js"] [] 0 0 = .ok c ∧
      c.segsAt 0 = [⟨⟨0, 0⟩, ⟨1, 0⟩, 0, -1⟩] ∧
      (getMap c).1.mappings = [⟨⟨0, 0⟩, some ⟨0, 0⟩, some 0, none⟩] :=
  ⟨⟨["a.js"], [], [⟨0, [⟨⟨0, 0⟩, ⟨1, 0⟩, 0, -1⟩], true, 0⟩], 0, 0, 1⟩,
    by decide, by decide, by decide⟩

/-! ## C7: the fallback of `_addSources` -/

/-- C7, evaluation at the failing input: `add_sources` of an array with one
non-string entry on the empty container leaves the sources pool empty, adds
the empty string to the names pool, and returns its names-pool index. -/
theorem addSources_nonstring_goes_to_names :
    addSources MappingContainer.empty [.other]
      = ({ MappingContainer.empty with names := [""] }, [0]) ∧
    (addSources MappingContainer.empty [.other]).1.sources = [] ∧
    (addSources MappingContainer.empty [.other]).1.getSourceIndex "" = -1 := by
  decide

end SourceMapBinding

/-! ## C8: the content of the buffer -/

theorem filter_column_orderedInsert (v : Int) (a : Mapping) :
    ∀ l : List Mapping,
      (l.orderedInsert colLE a).filter (fun m => decide (m.generated.column = v))
        = (a :: l).filter (fun m => decide (m.generated.column = v))
  | [] => rfl
  | b :: l => by
    simp only [List.orderedInsert]
    by_cases hab : colLE a b
    · rw [if_pos hab]
    · rw [if_neg hab, List.filter_cons, filter_column_orderedInsert v a l]
      have hlt : b.generated.column < a.generated.column := by
        unfold colLE at hab
        omega
      by_cases hav : a.generated.column = v
      · have hbv : ¬ b.generated.column = v := by omega
        simp [List.filter_cons, hav, hbv]
      · by_cases hbv : b.generated.column = v
        · simp [List.filter_cons, hav, hbv]
        · simp [List.filter_cons, hav, hbv]

theorem filter_column_insertionSort (v : Int) :
    ∀ l : List Mapping,
      (l.insertionSort colLE).filter (fun m => decide (m.generated.column = v))
        = l.filter (fun m => decide (m.generated.column = v))
  | [] => rfl
  | a :: l => by
    simp only [List.insertionSort]
    rw [filter_column_orderedInsert, List.filter_cons, List.filter_cons,
      filter_column_insertionSort v l]

namespace SourceMapBinding

open MappingContainer

theorem toBuffer_lines_getElem? (c : MappingContainer) (i : Nat) :
    (toBuffer c).1.lines[i]? = c.mapping_lines[i]?.map
      (fun l => ⟨l.sort.lineNumber, l.sort.isSorted, l.sort.segments.map toSchemaMapping⟩) := by
  rw [toBuffer_fst]
  simp only [MappingContainer.sort, List.getElem?_map, Option.map_map]
  rfl

/-- C8, as amended: for every well-formed container whose lines flagged sorted
are non-decreasing in generated column, the buffer written by `toBuffer` lists
names and sources in pool order, its line count is `generated_lines`, and for
every line `i` of the container it holds at index `i` a record with line
number `i`, the flag of the line after sorting, which is set, and as segments
a stable sort of the line by generated column: a permutation of the line's
segments, non-decreasing in generated column, in which the segments of any
one column keep their insertion order. -/
theorem toBuffer_lists_pools_and_sorted_lines (c : MappingContainer)
    (hc : WellFormed c) (hf : SortedFlags c) :
    (toBuffer c).1.names = c.names ∧ (toBuffer c).1.sources = c.sources ∧
    (toBuffer c).1.lineCount = c.generated_lines ∧
    (toBuffer c).1.lines.length = c.mapping_lines.length ∧
    ∀ (i : Nat) (line : MappingLine), c.mapping_lines[i]? = some line →
      ∃ (record : SourceMapSchema.MappingLine) (sorted : List Mapping),
        (toBuffer c).1.lines[i]? = some record ∧
        record.lineNumber = i ∧
        record.isSorted = ((toBuffer c).2.lineAt i).isSorted ∧ record.isSorted = true ∧
        record.segments = sorted.map toSchemaMapping ∧
        (toBuffer c).2.segsAt i = sorted ∧
        sorted.Perm line.segments ∧
        sorted.Sorted colLE ∧
        ∀ v : Int, sorted.filter (fun m => decide (m.generated.column = v))
          = line.segments.filter (fun m => decide (m.generated.column = v)) := by
  refine ⟨rfl, rfl, rfl, by simp [toBuffer_fst, MappingContainer.sort], ?_⟩
  intro i line hline
  have hmem : line ∈ c.mapping_lines := List.getElem?_mem hline
  have hflag := hf line hmem
  have hat : (toBuffer c).2.lineAt i = line.sort := by
    rw [toBuffer_snd, lineAt_sort, getElem?_eq_lineAt hline]
  refine ⟨⟨line.sort.lineNumber, line.sort.isSorted,
      line.sort.segments.map toSchemaMapping⟩, line.sort.segments, ?_, ?_, ?_, ?_, rfl, ?_,
    MappingLine.sort_segments_perm line, MappingLine.sort_segments_sorted hflag, ?_⟩
  · rw [toBuffer_lines_getElem?, hline]
    rfl
  · show line.sort.lineNumber = i
    rw [MappingLine.sort_lineNumber]
    exact hc.line_number i line hline
  · show line.sort.isSorted = _
    rw [hat]
  · exact MappingLine.sort_isSorted line
  · rw [segsAt_eq_lineAt, hat]
  · intro v
    rw [MappingLine.sort_segments_eq hflag]
    exact filter_column_insertionSort v line.segments

/-- Witness of C8: the amended statement at the container with one unsorted
line, whose record holds column 3 before column 5. -/
theorem toBuffer_lists_pools_and_sorted_lines_witness :
    (toBuffer unsortedSample).1
      = ⟨[], ["a.js"], 0, [⟨0, true, [⟨0, 3, 0, 1, 0, -1⟩, ⟨0, 5, 0, 0, 0, -1⟩]⟩]⟩ ∧
    ((toBuffer unsortedSample).1.names = unsortedSample.names ∧
      (toBuffer unsortedSample).1.sources = unsortedSample.sources ∧
      (toBuffer unsortedSample).1.lineCount = unsortedSample.generated_lines ∧
      (toBuffer unsortedSample).1.lines.length = unsortedSample.mapping_lines.length ∧
      ∀ (i : Nat) (line : MappingLine), unsortedSample.mapping_lines[i]? = some line →
        ∃ (record : SourceMapSchema.MappingLine) (sorted : List Mapping),
          (toBuffer unsortedSample).1.lines[i]? = some record ∧
          record.lineNumber = i ∧
          record.isSorted = ((toBuffer unsortedSample).2.lineAt i).isSorted ∧
          record.isSorted = true ∧
          record.segments = sorted.map toSchemaMapping ∧
          (toBuffer unsortedSample).2.segsAt i = sorted ∧
          sorted.Perm line.segments ∧
          sorted.Sorted colLE ∧
          ∀ v : Int, sorted.filter (fun m => decide (m.generated.column = v))
            = line.segments.filter (fun m => decide (m.generated.column = v))) :=
  ⟨by decide,
    toBuffer_lists_pools_and_sorted_lines unsortedSample wellFormed_unsortedSample
      (fun l hl hs => by
        simp only [unsortedSample, List.mem_singleton] at hl
        subst hl
        cases hs)⟩

/-- Counterexample to C8 as stated: merging a buffer whose record is flagged
sorted over columns 5 then 3 into the empty container gives a line that
carries the copied flag; `sort` skips it, and the record `toBuffer` writes for
it holds columns 5 then 3, which is not its stable sort, columns 3 then 5. -/
theorem toBuffer_trusted_flag_counterexample :
    addBufferMappings MappingContainer.empty lyingFlagBuffer 0 0 = some lyingFlagSample ∧
    (toBuffer lyingFlagSample).1.lines
      = [⟨0, true, [⟨0, 5, -1, -1, -1, -1⟩, ⟨0, 3, -1, -1, -1, -1⟩]⟩] ∧
    (lyingFlagSample.segsAt 0).insertionSort colLE
      = [⟨⟨0, 3⟩, ⟨-1, -1⟩, -1, -1⟩, ⟨⟨0, 5⟩, ⟨-1, -1⟩, -1, -1⟩] ∧
    ¬ ∃ sorted : List Mapping,
      (toBuffer lyingFlagSample).1.lines[0]?.map (fun r => r.segments)
        = some (sorted.map toSchemaMapping) ∧
      sorted.Sorted colLE := by
  refine ⟨by decide, by decide, by decide, ?_⟩
  rintro ⟨sorted, hrec, hsorted⟩
  have h1 : (sorted.map toSchemaMapping).Sorted schemaColLE :=
    List.pairwise_map.mpr hsorted
  have h2 : (toBuffer lyingFlagSample).1.lines[0]?.map (fun r => r.segments)
      = some [⟨0, 5, -1, -1, -1, -1⟩, ⟨0, 3, -1, -1, -1, -1⟩] := by decide
  rw [h2, Option.some.injEq] at hrec
  rw [← hrec] at h1
  simp only [List.Sorted, List.pairwise_cons, List.mem_singleton, forall_eq] at h1
  have h3 : (5 : Int) ≤ 3 := h1.1
  omega

end SourceMapBinding

/-! ## C9: the sorted-flag invariant under buffer merges -/

theorem modifyAt_of_length_le (f : MappingLine → MappingLine) :
    ∀ (l : List MappingLine) (i : Nat), l.length ≤ i → modifyAt f l i = l
  | [], _, _ => rfl
  | _ :: _, 0, h => by simp at h
  | a :: l, i + 1, h => by
    simp only [modifyAt, modifyAt_of_length_le f l i (by simpa using h)]

theorem lineOK_new (n : Int) : LineOK (MappingLine.new n) :=
  ⟨fun _ hm => (by cases hm), fun _ => List.sorted_nil⟩

theorem lineOK_addMapping {l : MappingLine} (h : LineOK l) (m : Mapping) :
    LineOK (l.addMapping m) := by
  obtain ⟨hlast, hsorted⟩ := h
  constructor
  · intro x hx
    simp only [MappingLine.addMapping, List.mem_append, List.mem_singleton] at hx ⊢
    rcases hx with hx | rfl
    · exact le_trans (hlast x hx) (le_max_left _ _)
    · exact le_max_right _ _
  · intro hflag
    simp only [MappingLine.addMapping, Bool.and_eq_true, Bool.not_eq_true',
      decide_eq_false_iff_not, not_lt] at hflag
    obtain ⟨h1, h2⟩ := hflag
    simp only [MappingLine.addMapping, List.Sorted]
    rw [List.pairwise_append]
    refine ⟨hsorted h1, List.pairwise_singleton _ _, ?_⟩
    intro a ha b hb
    rw [List.mem_singleton] at hb
    subst hb
    exact le_trans (hlast a ha) h2

theorem lineOK_setIsSorted {l : MappingLine} (h : LineOK l) (v : Bool)
    (hv : v = true → l.segments.Sorted colLE) : LineOK (l.setIsSorted v) :=
  ⟨h.1, fun hflag => hv hflag⟩

theorem landing_sorted (lo co sb nb : Int) {ss : List SourceMapSchema.Mapping}
    (h : (ss.map (SourceMapBinding.mergedSegment lo co sb nb)).Sorted colLE) (j : Nat) :
    (SourceMapBinding.landing lo co sb nb ss j).Sorted colLE :=
  List.Pairwise.filter _ h

namespace MappingContainer

theorem allLinesOK_of_wellFormed {c : MappingContainer} (hc : WellFormed c)
    (hf : SortedFlags c) : AllLinesOK c := by
  intro j
  by_cases h : j < c.mapping_lines.length
  · have hmem : c.lineAt j ∈ c.mapping_lines := List.getElem?_mem (lineAt_of_lt h)
    exact ⟨hc.last_column _ hmem, hf _ hmem⟩
  · rw [lineAt_of_le (Nat.le_of_not_lt h)]
    exact lineOK_new _

theorem sortedFlags_of_allLinesOK {c : MappingContainer} (h : AllLinesOK c) :
    SortedFlags c := by
  intro l hl
  obtain ⟨i, _, rfl⟩ := mem_lines_iff_lineAt.mp hl
  exact (h i).2

theorem allLinesOK_createLines {c : MappingContainer} (h : AllLinesOK c) (n : Int) :
    AllLinesOK (c.createLinesIfUndefined n) := by
  intro j
  rw [lineAt_createLines]
  exact h j

theorem allLinesOK_addMapping {c c' : MappingContainer} {g o : Position} {s n : Int}
    (h : AllLinesOK c) (hadd : c.addMapping g o s n = some c') : AllLinesOK c' := by
  intro j
  rw [addMapping_lineAt hadd j]
  split
  · exact lineOK_addMapping (h j) _
  · exact h j

theorem allLinesOK_setLineSorted {c : MappingContainer} (h : AllLinesOK c) (i : Nat)
    (v : Bool) (hv : v = true → (c.segsAt i).Sorted colLE) :
    AllLinesOK (c.setLineSorted i v) := by
  by_cases hi : i < c.mapping_lines.length
  · intro j
    rw [setLineSorted_lineAt c v hi j]
    split
    · rename_i hj
      subst hj
      exact lineOK_setIsSorted (h j) v (by rw [← segsAt_eq_lineAt]; exact hv)
    · exact h j
  · have : c.setLineSorted i v = c := by
      unfold setLineSorted
      rw [modifyAt_of_length_le _ _ _ (Nat.le_of_not_lt hi)]
    rw [this]
    exact h

theorem wellFormed_setLineSorted {c : MappingContainer} (hc : WellFormed c) (i : Nat)
    (v : Bool) : WellFormed (c.setLineSorted i v) := by
  by_cases hi : i < c.mapping_lines.length
  · have hl : ∀ j, (c.setLineSorted i v).lineAt j
        = if j = i then (c.lineAt j).setIsSorted v else c.lineAt j :=
      setLineSorted_lineAt c v hi
    refine wellFormed_of_lineAt hc.sources_nodup hc.names_nodup ?_ ?_ ?_ ?_
    · rw [setLineSorted_length]; exact hc.lines_length
    · intro j
      rw [hl j]
      split
      · exact lineAt_lineNumber hc j
      · exact lineAt_lineNumber hc j
    · intro j m hm
      rw [hl j] at hm
      split at hm
      · exact lineAt_generated_line hc j m hm
      · exact lineAt_generated_line hc j m hm
    · intro j m hm
      rw [hl j] at hm ⊢
      split at hm
      · rename_i hj
        rw [if_pos hj]
        exact lineAt_last_column hc j m hm
      · rename_i hj
        rw [if_neg hj]
        exact lineAt_last_column hc j m hm
  · have : c.setLineSorted i v = c := by
      unfold setLineSorted
      rw [modifyAt_of_length_le _ _ _ (Nat.le_of_not_lt hi)]
    rw [this]
    exact hc

theorem allLinesOK_pools {c : MappingContainer} (h : AllLinesOK c) (srcs nms : List String) :
    AllLinesOK ({ c with sources := srcs, names := nms }) := h

end MappingContainer

namespace SourceMapBinding

open MappingContainer

theorem foldSegments_allLinesOK {lo co sb nb : Int} (ss : List SourceMapSchema.Mapping)
    {c c' : MappingContainer} (hc : AllLinesOK c)
    (h : ss.foldlM (addBufferSegment lo co sb nb) c = some c') : AllLinesOK c' :=
  foldlM_option_invariant AllLinesOK _ ss c c'
    (fun _ _ _ _ hs hstep => allLinesOK_addMapping hs hstep) hc h

theorem addBufferLine_allLinesOK {snapshot : Nat} {lo co sb nb : Int}
    {c c' : MappingContainer} {line : SourceMapSchema.MappingLine} (hc : AllLinesOK c)
    (hrec : line.isSorted = true →
      (line.segments.map (mergedSegment lo co sb nb)).Sorted colLE)
    (h : addBufferLine snapshot lo co sb nb c line = some c') : AllLinesOK c' := by
  obtain ⟨_, _, c1, hc1, rfl⟩ := addBufferLine_some h
  have h1 := foldSegments_allLinesOK _ hc hc1
  split
  · rename_i hnew
    apply allLinesOK_setLineSorted h1
    intro hflag
    rw [foldSegments_segsAt _ hc1, List.isEmpty_iff.mp hnew, List.nil_append]
    exact landing_sorted lo co sb nb (hrec hflag) _
  · exact h1

theorem foldLines_allLinesOK {snapshot : Nat} {lo co sb nb : Int}
    (ls : List SourceMapSchema.MappingLine) {c c' : MappingContainer} (hc : AllLinesOK c)
    (hrec : ∀ line ∈ ls, line.isSorted = true →
      (line.segments.map (mergedSegment lo co sb nb)).Sorted colLE)
    (h : ls.foldlM (addBufferLine snapshot lo co sb nb) c = some c') : AllLinesOK c' :=
  foldlM_option_invariant AllLinesOK _ ls c c'
    (fun line hline _ _ hs hstep => addBufferLine_allLinesOK hs (hrec line hline) hstep) hc h

theorem mem_segsAt_of_mem_sort {src : MappingContainer} {i : Nat} {m : Mapping}
    (h : m ∈ src.sort.segsAt i) : m ∈ src.segsAt i := by
  rw [segsAt_eq_lineAt, lineAt_sort] at h
  rw [segsAt_eq_lineAt]
  exact MappingLine.mem_sort_segments.mp h

theorem toBuffer_records_sorted {src : MappingContainer} (hs : WellFormed src)
    (hsf : SortedFlags src) (lo co sb nb : Int)
    (hcol : ∀ j, ∀ m ∈ src.segsAt j, inInt32 (m.generated.column + co))
    {line : SourceMapSchema.MappingLine} (h : line ∈ (toBuffer src).1.lines) :
    (line.segments.map (mergedSegment lo co sb nb)).Sorted colLE := by
  obtain ⟨i, _, _, _, hseg, _⟩ := toBuffer_line_spec hs h
  rw [hseg]
  have h1 : (src.sort.segsAt i).Sorted colLE := by
    rw [segsAt_eq_lineAt]
    exact (allLinesOK_of_wellFormed (wellFormed_sort hs) (sortedFlags_sort hsf) i).2
      (by rw [lineAt_sort]; exact MappingLine.sort_isSorted _)
  rw [List.map_map]
  refine List.pairwise_map.mpr (List.Pairwise.imp_of_mem ?_ h1)
  intro a b ha hb hab
  have ea : intAdd a.generated.column co = a.generated.column + co :=
    intAdd_of_inInt32 (hcol i a (mem_segsAt_of_mem_sort ha))
  have eb : intAdd b.generated.column co = b.generated.column + co :=
    intAdd_of_inInt32 (hcol i b (mem_segsAt_of_mem_sort hb))
  unfold colLE at hab
  simp only [colLE, Function.comp, mergedSegment, toSchemaMapping, ea, eb]
  omega

theorem intAdd_line_exact {gl lo : Int} (hlo : 0 ≤ lo) (hfit : gl + lo ≤ 2147483647)
    (x : Int) (h0 : -1 ≤ x) (h1 : x ≤ gl) : intAdd x lo = x + lo := by
  apply intAdd_of_inInt32
  unfold inInt32
  omega

/-- C9, as amended: when the destination container is well-formed and satisfies
the sorted-flag invariant, the buffer is written by `toBuffer` from a
well-formed container that satisfies the invariant too, the line offset is not
negative, and `generated_lines` plus the line offset and every generated
column of the source plus the column offset fit in `int`, `addBufferMappings`
succeeds and every line of the result flagged sorted has its segments
non-decreasing in generated column. -/
theorem addBufferMappings_preserves_sortedFlags (c src : MappingContainer) (lo co : Int)
    (hc : WellFormed c) (hf : SortedFlags c) (hs : WellFormed src) (hsf : SortedFlags src)
    (hlo : 0 ≤ lo) (hfit : src.generated_lines + lo ≤ 2147483647)
    (hcol : ∀ j, ∀ m ∈ src.segsAt j, inInt32 (m.generated.column + co)) :
    ∃ c', addBufferMappings c (toBuffer src).1 lo co = some c' ∧ SortedFlags c' := by
  obtain ⟨c2, hc2⟩ := foldLines_isSome
    (c.createLinesIfUndefined (intAdd (toBuffer src).1.lineCount lo)).mapping_lines.length
    lo co c.sources.length c.names.length (toBuffer src).1.lines
    (c.createLinesIfUndefined (intAdd (toBuffer src).1.lineCount lo))
    (fun line hline => toBuffer_inBounds hs c hlo (intAdd_line_exact hlo hfit) hline)
  refine ⟨_, addBufferMappings_of_fold hc2, ?_⟩
  apply sortedFlags_of_allLinesOK
  apply allLinesOK_pools
  exact foldLines_allLinesOK _
    (allLinesOK_createLines (allLinesOK_of_wellFormed hc hf) _)
    (fun line hline _ => toBuffer_records_sorted hs hsf lo co _ _ hcol hline) hc2

theorem sortedFlags_unsortedSample : SortedFlags unsortedSample := by
  intro l hl hflag
  simp only [unsortedSample, List.mem_singleton] at hl
  subst hl
  cases hflag

theorem unsortedSample_columns :
    ∀ j, ∀ m ∈ unsortedSample.segsAt j, m.generated.column = 5 ∨ m.generated.column = 3
  | 0, m, hm => by
    simp only [segsAt, unsortedSample, List.getElem?_cons_zero, List.mem_cons,
      List.mem_singleton, List.not_mem_nil, or_false] at hm
    rcases hm with rfl | rfl
    · exact Or.inl rfl
    · exact Or.inr rfl
  | j + 1, m, hm => by
    simp [segsAt, unsortedSample] at hm

/-- Witness of C9: the container with one unsorted line merged with its own
buffer at line offset 1 and column offset 2; line 0 keeps its cleared flag,
and the new line 1 holds columns 5 then 7 with its flag set. -/
theorem addBufferMappings_preserves_sortedFlags_witness :
    (addBufferMappings unsortedSample (toBuffer unsortedSample).1 1 2).map
        (fun d => (d.sortedAt 0, d.sortedAt 1,
          (d.segsAt 1).map (fun m => m.generated.column)))
      = some (some false, some true, [5, 7]) ∧
    ∃ c', addBufferMappings unsortedSample (toBuffer unsortedSample).1 1 2 = some c' ∧
      SortedFlags c' :=
  ⟨by decide,
    addBufferMappings_preserves_sortedFlags unsortedSample unsortedSample 1 2
      wellFormed_unsortedSample sortedFlags_unsortedSample
      wellFormed_unsortedSample sortedFlags_unsortedSample (by decide) (by decide)
      (fun j m hm => by
        rcases unsortedSample_columns j m hm with h | h <;> rw [h] <;> decide)⟩

theorem wellFormed_lyingFlagSample : WellFormed lyingFlagSample := by
  have h1 : WellFormed
      (⟨[], [], [⟨0, [⟨⟨0, 5⟩, ⟨-1, -1⟩, -1, -1⟩], true, 5⟩], 5, 0, 1⟩ : MappingContainer) :=
    wellFormed_addMapping wellFormed_empty
      (show MappingContainer.empty.addMapping ⟨0, 5⟩ ⟨-1, -1⟩ (-1) (-1)
        = some ⟨[], [], [⟨0, [⟨⟨0, 5⟩, ⟨-1, -1⟩, -1, -1⟩], true, 5⟩], 5, 0, 1⟩ from by decide)
  have h2 := wellFormed_addMapping h1
    (show (⟨[], [], [⟨0, [⟨⟨0, 5⟩, ⟨-1, -1⟩, -1, -1⟩], true, 5⟩], 5, 0, 1⟩ :
        MappingContainer).addMapping ⟨0, 3⟩ ⟨-1, -1⟩ (-1) (-1)
      = some (lyingFlagSample.setLineSorted 0 false) from by decide)
  exact wellFormed_setLineSorted h2 0 true

theorem wellFormed_sortedPairSample : WellFormed sortedPairSample := by
  have h1 : WellFormed
      (⟨[], [], [⟨0, [⟨⟨0, 0⟩, ⟨-1, -1⟩, -1, -1⟩], true, 0⟩], 0, 0, 1⟩ : MappingContainer) :=
    wellFormed_addMapping wellFormed_empty
      (show MappingContainer.empty.addMapping ⟨0, 0⟩ ⟨-1, -1⟩ (-1) (-1)
        = some ⟨[], [], [⟨0, [⟨⟨0, 0⟩, ⟨-1, -1⟩, -1, -1⟩], true, 0⟩], 0, 0, 1⟩ from by decide)
  exact wellFormed_addMapping h1
    (show (⟨[], [], [⟨0, [⟨⟨0, 0⟩, ⟨-1, -1⟩, -1, -1⟩], true, 0⟩], 0, 0, 1⟩ :
        MappingContainer).addMapping ⟨0, 1⟩ ⟨-1, -1⟩ (-1) (-1)
      = some sortedPairSample from by decide)

theorem sortedFlags_sortedPairSample : SortedFlags sortedPairSample := by
  intro l hl _
  simp only [sortedPairSample, List.mem_singleton] at hl
  subst hl
  simp only [List.Sorted, List.pairwise_cons, List.mem_singleton, forall_eq,
    List.not_mem_nil, false_implies, implies_true, List.Pairwise.nil, and_true]
  show (0 : Int) ≤ 1
  omega

/-- Counterexample to C9 as stated, in two parts. First, the empty container
satisfies the sorted-flag invariant; the buffer `toBuffer` writes from the
well-formed container whose line 0 carries a trusted flag over columns 5 then
3 repeats that flag; after the merge at offsets zero, line 0 of the result is
flagged sorted and holds columns 5 then 3. Second, the buffer of the
well-formed container with the sorted line of columns 0 then 1, merged into
the empty container at column offset 2147483647: the `int` sum at
SourceMap.cpp line 107 wraps the second column to minus 2147483648, and the
flag is still copied onto the line. -/
theorem addBufferMappings_sortedFlags_counterexample :
    (SortedFlags MappingContainer.empty ∧
      WellFormed lyingFlagSample ∧
      addBufferMappings MappingContainer.empty lyingFlagBuffer 0 0 = some lyingFlagSample ∧
      addBufferMappings MappingContainer.empty (toBuffer lyingFlagSample).1 0 0
        = some lyingFlagSample ∧
      ¬ SortedFlags lyingFlagSample) ∧
    (WellFormed sortedPairSample ∧ SortedFlags sortedPairSample ∧
      addBufferMappings MappingContainer.empty (toBuffer sortedPairSample).1 0 2147483647
        = some wrappedPairSample ∧
      ¬ SortedFlags wrappedPairSample) := by
  refine ⟨⟨fun l hl => (by cases hl), wellFormed_lyingFlagSample, by decide, by decide, ?_⟩,
    wellFormed_sortedPairSample, sortedFlags_sortedPairSample, by decide, ?_⟩
  · intro h
    have h1 := h ⟨0, [⟨⟨0, 5⟩, ⟨-1, -1⟩, -1, -1⟩, ⟨⟨0, 3⟩, ⟨-1, -1⟩, -1, -1⟩], true, 5⟩
      (by decide) rfl
    simp only [List.Sorted, List.pairwise_cons, List.mem_singleton, forall_eq] at h1
    have h3 : (5 : Int) ≤ 3 := h1.1
    omega
  · intro h
    have h1 := h ⟨0, [⟨⟨0, 2147483647⟩, ⟨-1, -1⟩, -1, -1⟩,
        ⟨⟨0, -2147483648⟩, ⟨-1, -1⟩, -1, -1⟩], true, 2147483647⟩
      (by decide) rfl
    simp only [List.Sorted, List.pairwise_cons, List.mem_singleton, forall_eq] at h1
    have h3 : (2147483647 : Int) ≤ -2147483648 := h1.1
    omega

end SourceMapBinding

/-! ## C10: pool offsets with a string collision -/

namespace SourceMapBinding

open MappingContainer

/-- C10: a container with sources pool `["a.js"]` and a buffer whose sources
list is `["a.js"]` with one segment of source index 0: the merged segment is
stored with source index 1, the previous count plus 0, where the pool, still
`["a.js"]`, holds nothing. -/
theorem addBufferMappings_collision_misses_pool :
    ∃ (c : MappingContainer) (map : SourceMapSchema.Map) (c' : MappingContainer)
      (seg : SourceMapSchema.Mapping) (m : Mapping),
      (∃ s ∈ map.sources, s ∈ c.sources) ∧
      addBufferMappings c map 0 0 = some c' ∧
      seg ∈ allSegments map ∧ 0 ≤ seg.source ∧
      m ∈ c'.segsAt (seg.generatedLine + 0).toNat ∧
      m = mergedSegment 0 0 c.getSourcesCount c.getNamesCount seg ∧
      m.source = c.getSourcesCount + seg.source ∧
      c'.sources[m.source.toNat]? ≠ map.sources[seg.source.toNat]? ∧
      c'.sources[m.source.toNat]? = none ∧
      map.sources[seg.source.toNat]? = some "a.js" :=
  ⟨oneSourceSample, collidingPoolBuffer,
    ⟨["a.js"], [], [⟨0, [⟨⟨0, 0⟩, ⟨0, 0⟩, 1, -1⟩], true, 0⟩], 0, 0, 1⟩,
    ⟨0, 0, 0, 0, 0, -1⟩, ⟨⟨0, 0⟩, ⟨0, 0⟩, 1, -1⟩,
    ⟨"a.js", by decide, by decide⟩, by decide, by decide, by decide, by decide, by decide,
    by decide, by decide, by decide, by decide⟩

end SourceMapBinding

/-! ## C11: the line lookups of the buffer merge are in range -/

namespace MappingContainer

theorem addMapping_length_of_lt {c c' : MappingContainer} {g o : Position} {s n : Int}
    (h : c.addMapping g o s n = some c') (hlt : g.line < (c.mapping_lines.length : Int)) :
    c'.mapping_lines.length = c.mapping_lines.length := by
  have h0 := addMapping_line_nonneg h
  rw [addMapping_length h]
  omega

end MappingContainer

namespace SourceMapBinding

open MappingContainer

theorem foldSegments_length_eq {lo co sb nb : Int} (ss : List SourceMapSchema.Mapping)
    {c c' : MappingContainer} (L : Nat)
    (hL : ∀ seg ∈ ss, intAdd seg.generatedLine lo < (L : Int))
    (hc : c.mapping_lines.length = L)
    (h : ss.foldlM (addBufferSegment lo co sb nb) c = some c') :
    c'.mapping_lines.length = L :=
  foldlM_option_invariant (fun s => s.mapping_lines.length = L) _ ss c c'
    (fun seg hseg s s' hs hstep => by
      have hlt : (mergedSegment lo co sb nb seg).generated.line
          < (s.mapping_lines.length : Int) := by
        have := hL seg hseg
        simp only [mergedSegment]
        omega
      exact (addMapping_length_of_lt hstep hlt).trans hs)
    hc h

theorem addBufferLine_length_eq {snapshot : Nat} {lo co sb nb : Int}
    {c c' : MappingContainer} {line : SourceMapSchema.MappingLine} (L : Nat)
    (hL : ∀ seg ∈ line.segments, intAdd seg.generatedLine lo < (L : Int))
    (hc : c.mapping_lines.length = L)
    (h : addBufferLine snapshot lo co sb nb c line = some c') :
    c'.mapping_lines.length = L := by
  obtain ⟨_, _, c1, hc1, rfl⟩ := addBufferLine_some h
  have := foldSegments_length_eq _ L hL hc hc1
  split
  · rw [setLineSorted_length]; exact this
  · exact this

theorem foldLines_length_eq {snapshot : Nat} {lo co sb nb : Int}
    (ls : List SourceMapSchema.MappingLine) {c c' : MappingContainer} (L : Nat)
    (hL : ∀ line ∈ ls, ∀ seg ∈ line.segments, intAdd seg.generatedLine lo < (L : Int))
    (hc : c.mapping_lines.length = L)
    (h : ls.foldlM (addBufferLine snapshot lo co sb nb) c = some c') :
    c'.mapping_lines.length = L :=
  foldlM_option_invariant (fun s => s.mapping_lines.length = L) _ ls c c'
    (fun line hline _ _ hs hstep => addBufferLine_length_eq L (hL line hline) hs hstep)
    hc h

theorem createLines_covers (c : MappingContainer) (n : Int) :
    n < ((c.createLinesIfUndefined n).mapping_lines.length : Int) := by
  rw [createLines_length]
  omega

/-- C11, as amended: for every destination container, every buffer written by
`toBuffer` from a well-formed container and every line offset that is not
negative and for which the source's `generated_lines` plus the offset is at
most 2147483647, so that the `int` sum at SourceMap.cpp line 92 does not wrap:
the buffer's line count is the source's `generated_lines` and record `i`
carries line number `i`; the `int` sum line count plus offset is the exact
sum, and the line vector pre-grown by `createLinesIfUndefined` covers that
index; every record's line number, the index of the lookup in the copy of the
pre-grown vector, lies between 0 and the line count, below the pre-grown
length; every segment's target line, the `int` sum generated line plus
offset, is the exact sum and lies between 0 and line count plus offset, below
the pre-grown length; so the merge returns, and the line vector it leaves has
the pre-grown length: no `addMapping` call had to grow it. -/
theorem addBufferMappings_toBuffer_lookups_in_bounds (c src : MappingContainer)
    (lo co : Int) (hs : WellFormed src) (hlo : 0 ≤ lo)
    (hfit : src.generated_lines + lo ≤ 2147483647) :
    (toBuffer src).1.lineCount = src.generated_lines ∧
    (∀ (i : Nat) (record : SourceMapSchema.MappingLine),
      (toBuffer src).1.lines[i]? = some record → record.lineNumber = i) ∧
    intAdd (toBuffer src).1.lineCount lo = (toBuffer src).1.lineCount + lo ∧
    (toBuffer src).1.lineCount + lo
      < ((c.createLinesIfUndefined
            (intAdd (toBuffer src).1.lineCount lo)).mapping_lines.length : Int) ∧
    (∀ record ∈ (toBuffer src).1.lines,
      0 ≤ record.lineNumber ∧ record.lineNumber ≤ (toBuffer src).1.lineCount ∧
      record.lineNumber
        < ((c.createLinesIfUndefined
              (intAdd (toBuffer src).1.lineCount lo)).mapping_lines.length : Int) ∧
      ∀ seg ∈ record.segments,
        intAdd seg.generatedLine lo = seg.generatedLine + lo ∧
        0 ≤ seg.generatedLine + lo ∧
        seg.generatedLine + lo ≤ (toBuffer src).1.lineCount + lo ∧
        seg.generatedLine + lo
          < ((c.createLinesIfUndefined
                (intAdd (toBuffer src).1.lineCount lo)).mapping_lines.length : Int)) ∧
    MergeDefined c (toBuffer src).1 lo ∧
    ∃ c', addBufferMappings c (toBuffer src).1 lo co = some c' ∧
      c'.mapping_lines.length
        = (c.createLinesIfUndefined
            (intAdd (toBuffer src).1.lineCount lo)).mapping_lines.length := by
  have hlen := hs.lines_length
  have hcount : (toBuffer src).1.lineCount = src.generated_lines := rfl
  have hexact := intAdd_line_exact hlo hfit
  have hsum : intAdd (toBuffer src).1.lineCount lo = (toBuffer src).1.lineCount + lo :=
    hexact _ (by rw [hcount]; omega) (by rw [hcount])
  have hcover := createLines_covers c (intAdd (toBuffer src).1.lineCount lo)
  have hcover2 : (toBuffer src).1.lineCount + lo
      < ((c.createLinesIfUndefined
            (intAdd (toBuffer src).1.lineCount lo)).mapping_lines.length : Int) := by
    rw [hsum] at hcover
    rw [hsum]
    exact hcover
  have hrec : ∀ record ∈ (toBuffer src).1.lines,
      0 ≤ record.lineNumber ∧ record.lineNumber ≤ (toBuffer src).1.lineCount ∧
      record.lineNumber
        < ((c.createLinesIfUndefined
              (intAdd (toBuffer src).1.lineCount lo)).mapping_lines.length : Int) ∧
      ∀ seg ∈ record.segments,
        intAdd seg.generatedLine lo = seg.generatedLine + lo ∧
        0 ≤ seg.generatedLine + lo ∧
        seg.generatedLine + lo ≤ (toBuffer src).1.lineCount + lo ∧
        seg.generatedLine + lo
          < ((c.createLinesIfUndefined
                (intAdd (toBuffer src).1.lineCount lo)).mapping_lines.length : Int) := by
    intro record hmem
    obtain ⟨i, hi, hn, _, _, hseg⟩ := toBuffer_line_spec hs hmem
    refine ⟨by omega, by omega, by omega, ?_⟩
    intro seg hsegmem
    rw [hseg seg hsegmem]
    exact ⟨hexact _ (by omega) (by omega), by omega, by omega, by omega⟩
  have hdef : MergeDefined c (toBuffer src).1 lo := fun line hline =>
    ⟨(hrec line hline).1, (hrec line hline).2.2.1,
      fun seg hseg => by
        rw [((hrec line hline).2.2.2 seg hseg).1]
        exact ((hrec line hline).2.2.2 seg hseg).2.1⟩
  refine ⟨hcount, ?_, hsum, hcover2, hrec, hdef, ?_⟩
  · intro i record hi
    rw [toBuffer_lines_getElem?] at hi
    cases hl : src.mapping_lines[i]? with
    | none => rw [hl] at hi; cases hi
    | some l =>
      rw [hl] at hi
      simp only [Option.map_some', Option.some.injEq] at hi
      subst hi
      show l.sort.lineNumber = (i : Int)
      rw [MappingLine.sort_lineNumber]
      exact hs.line_number i l hl
  · obtain ⟨c', h⟩ := (addBufferMappings_isSome_iff c (toBuffer src).1 lo co).mpr hdef
    refine ⟨c', h, ?_⟩
    obtain ⟨c2, hc2, rfl⟩ := addBufferMappings_some h
    have hlen2 : c2.mapping_lines.length
        = (c.createLinesIfUndefined
            (intAdd (toBuffer src).1.lineCount lo)).mapping_lines.length :=
      foldLines_length_eq _ _
        (fun line hline seg hseg => by
          rw [((hrec line hline).2.2.2 seg hseg).1]
          exact ((hrec line hline).2.2.2 seg hseg).2.2.2) rfl hc2
    exact hlen2

/-- Witness of C11: the buffer of the container with one line merged into the
container with no lines at line offset 1: the vector is pre-grown to two
lines, the lookup reads index 0, the two segments go to line 1, and the merge
leaves two lines. -/
theorem addBufferMappings_toBuffer_lookups_in_bounds_witness :
    (oneSourceSample.createLinesIfUndefined
        (intAdd (toBuffer unsortedSample).1.lineCount 1)).mapping_lines.length = 2 ∧
    (toBuffer unsortedSample).1.lines.map (fun record => record.lineNumber) = [0] ∧
    (allSegments (toBuffer unsortedSample).1).map (fun seg => intAdd seg.generatedLine 1)
      = [1, 1] ∧
    (addBufferMappings oneSourceSample (toBuffer unsortedSample).1 1 0).map
        (fun d => d.mapping_lines.length) = some 2 ∧
    MergeDefined oneSourceSample (toBuffer unsortedSample).1 1 ∧
    ∃ c', addBufferMappings oneSourceSample (toBuffer unsortedSample).1 1 0 = some c' ∧
      c'.mapping_lines.length
        = (oneSourceSample.createLinesIfUndefined
            (intAdd (toBuffer unsortedSample).1.lineCount 1)).mapping_lines.length :=
  ⟨by decide, by decide, by decide, by decide,
    (addBufferMappings_toBuffer_lookups_in_bounds oneSourceSample unsortedSample 1 0
      wellFormed_unsortedSample (by decide) (by decide)).2.2.2.2.2⟩

theorem wellFormed_secondRawSample : WellFormed secondRawSample := by
  have h0 : WellFormed (⟨["a.js", "b.js"], [], [], 0, -1, 0⟩ : MappingContainer) :=
    { wellFormed_empty with sources_nodup := by decide }
  have h1 : WellFormed
      (⟨["a.js", "b.js"], [], [⟨0, [⟨⟨0, 0⟩, ⟨0, 0⟩, 0, -1⟩], true, 0⟩], 0, 0, 1⟩ :
        MappingContainer) :=
    wellFormed_addMapping h0
      (show (⟨["a.js", "b.js"], [], [], 0, -1, 0⟩ : MappingContainer).addMapping
          ⟨0, 0⟩ ⟨0, 0⟩ 0 (-1)
        = some ⟨["a.js", "b.js"], [], [⟨0, [⟨⟨0, 0⟩, ⟨0, 0⟩, 0, -1⟩], true, 0⟩], 0, 0, 1⟩
        from by decide)
  exact wellFormed_addMapping h1
    (show (⟨["a.js", "b.js"], [], [⟨0, [⟨⟨0, 0⟩, ⟨0, 0⟩, 0, -1⟩], true, 0⟩], 0, 0, 1⟩ :
        MappingContainer).addMapping ⟨1, 0⟩ ⟨0, 0⟩ 1 (-1) = some secondRawSample
      from by decide)

/-- Counterexample to C11 as stated: the well-formed container with lines 0
and 1 has `generated_lines` 1, so its buffer has line count 1 and records
numbered 0 and 1. Merged into the empty container at the line offset
2147483647, which is not negative, the `int` sum line count plus offset at
SourceMap.cpp line 92 wraps to minus 2147483648, `createLinesIfUndefined`
grows nothing, and the lookup of record 0 at line 102 indexes a line vector of
length 0: the merge is not defined. -/
theorem addBufferMappings_lookup_out_of_bounds_counterexample :
    WellFormed secondRawSample ∧
    (0 : Int) ≤ 2147483647 ∧
    (toBuffer secondRawSample).1.lineCount = 1 ∧
    (toBuffer secondRawSample).1.lines.map (fun record => record.lineNumber) = [0, 1] ∧
    intAdd (toBuffer secondRawSample).1.lineCount 2147483647 = -2147483648 ∧
    (MappingContainer.empty.createLinesIfUndefined
        (intAdd (toBuffer secondRawSample).1.lineCount 2147483647)).mapping_lines.length = 0 ∧
    (MappingContainer.empty.createLinesIfUndefined
        (intAdd (toBuffer secondRawSample).1.lineCount 2147483647)).mapping_lines[0]? = none ∧
    (allSegments (toBuffer secondRawSample).1).map
        (fun seg => intAdd seg.generatedLine 2147483647) = [2147483647, -2147483648] ∧
    addBufferMappings MappingContainer.empty (toBuffer secondRawSample).1 2147483647 0 = none ∧
    ¬ MergeDefined MappingContainer.empty (toBuffer secondRawSample).1 2147483647 := by
  refine ⟨wellFormed_secondRawSample, by decide, by decide, by decide, by decide, by decide,
    by decide, by decide, by decide, ?_⟩
  intro h
  have h1 := (addBufferMappings_isSome_iff MappingContainer.empty
    (toBuffer secondRawSample).1 2147483647 0).mpr h
  obtain ⟨c', hc'⟩ := h1
  have h2 : addBufferMappings MappingContainer.empty (toBuffer secondRawSample).1
      2147483647 0 = none := by decide
  rw [h2] at hc'
  cases hc'

end SourceMapBinding

/-! ## The representation invariant is kept by every operation of the binding -/

theorem poolAdd_nodup {pool : List String} (h : pool.Nodup) (s : String) :
    (MappingContainer.poolAdd pool s).1.Nodup := by
  by_cases hs : s ∈ pool
  · rw [SourceMapBinding.poolAdd_of_mem hs]; exact h
  · rw [SourceMapBinding.poolAdd_of_not_mem hs]
    exact List.Nodup.append h (List.nodup_singleton s)
      (by
        intro x hx hx'
        rw [List.mem_singleton] at hx'
        subst hx'
        exact hs hx)

theorem poolAddAll_nodup : ∀ (l pool : List String), pool.Nodup → (poolAddAll pool l).Nodup
  | [], _, h => h
  | s :: l, pool, h => by
    unfold poolAddAll
    rw [List.foldl_cons]
    exact poolAddAll_nodup l _ (poolAdd_nodup h s)

namespace MappingContainer

theorem wellFormed_pools {c : MappingContainer} (hc : WellFormed c) {srcs nms : List String}
    (h1 : srcs.Nodup) (h2 : nms.Nodup) :
    WellFormed ({ c with sources := srcs, names := nms }) :=
  { hc with sources_nodup := h1, names_nodup := h2 }

theorem wellFormed_createLines {c : MappingContainer} (hc : WellFormed c) (n : Int) :
    WellFormed (c.createLinesIfUndefined n) := by
  refine wellFormed_of_lineAt hc.sources_nodup hc.names_nodup ?_ ?_ ?_ ?_
  · rw [createLines_length]
    have := hc.lines_length
    simp only [createLinesIfUndefined]
    omega
  · intro i; rw [lineAt_createLines]; exact lineAt_lineNumber hc i
  · intro i; rw [lineAt_createLines]; exact lineAt_generated_line hc i
  · intro i; rw [lineAt_createLines]; exact lineAt_last_column hc i

theorem wellFormed_applyEvent {c c' : MappingContainer} {ev : VlqEvent} (hc : WellFormed c)
    (h : c.applyEvent ev = some c') : WellFormed c' := by
  cases ev with
  | segment g o s n => exact wellFormed_addMapping hc h
  | line n =>
    simp only [applyEvent, Option.some.injEq] at h
    subst h
    exact wellFormed_createLines hc n

/-- The VLQ merge keeps the representation invariant, also when it stops at a
decode error. -/
theorem wellFormed_addVLQMappings {c : MappingContainer} (hc : WellFormed c)
    (text : String) (lo co so no : Int) :
    (∀ c', c.addVLQMappings text lo co so no = .ok c' → WellFormed c') ∧
    (∀ c', c.addVLQMappings text lo co so no = .decodeError c' → WellFormed c') := by
  have hfold : ∀ c1, (parseMappings text.toList lo co so no).1.foldlM applyEvent c = some c1 →
      WellFormed c1 := fun c1 hf =>
    foldlM_option_invariant WellFormed _ _ c c1
      (fun _ _ _ _ hs hstep => wellFormed_applyEvent hs hstep) hc hf
  constructor
  · intro c' h
    unfold addVLQMappings at h
    simp only at h
    split at h
    · cases h
    · rename_i c1 hf
      split at h
      · cases h
      · cases h
        exact hfold _ hf
  · intro c' h
    unfold addVLQMappings at h
    simp only at h
    split at h
    · cases h
    · rename_i c1 hf
      split at h
      · cases h
        exact hfold _ hf
      · cases h

end MappingContainer

namespace SourceMapBinding

open MappingContainer

theorem wellFormed_addNames {c : MappingContainer} (hc : WellFormed c)
    (names : List NapiValue) : WellFormed (_addNames c names).1 := by
  rw [addNames_fst]
  exact { hc with names_nodup := poolAddAll_nodup _ _ hc.names_nodup }

theorem wellFormed_addSources {c : MappingContainer} (hc : WellFormed c) :
    ∀ (sources : List NapiValue), WellFormed (_addSources c sources).1 := by
  intro sources
  induction sources generalizing c with
  | nil => exact hc
  | cons v rest ih =>
    cases v with
    | string s =>
      simp only [_addSources]
      exact ih { hc with sources_nodup := poolAdd_nodup hc.sources_nodup s }
    | other =>
      simp only [_addSources]
      exact ih { hc with names_nodup := poolAdd_nodup hc.names_nodup "" }

/-- The raw merge keeps the representation invariant. -/
theorem wellFormed_addRawMappings {c c' : MappingContainer} (hc : WellFormed c)
    {text : String} {sources names : List NapiValue} {lo co : Int}
    (h : addRawMappings c text sources names lo co = .ok c') : WellFormed c' := by
  unfold addRawMappings at h
  split at h
  · rename_i c1 hc1
    cases h
    exact wellFormed_addSources
      (wellFormed_addNames ((wellFormed_addVLQMappings hc text lo co _ _).1 c1 hc1) names)
      sources
  · cases h
  · cases h

theorem addBufferLine_wellFormed {snapshot : Nat} {lo co sb nb : Int}
    {c c' : MappingContainer} {line : SourceMapSchema.MappingLine} (hc : WellFormed c)
    (h : addBufferLine snapshot lo co sb nb c line = some c') : WellFormed c' := by
  obtain ⟨_, _, c1, hc1, rfl⟩ := addBufferLine_some h
  have h1 : WellFormed c1 := foldlM_option_invariant WellFormed _ _ c c1
    (fun _ _ _ _ hs hstep => wellFormed_addMapping hs hstep) hc hc1
  split
  · exact wellFormed_setLineSorted h1 _ _
  · exact h1

/-- The buffer merge keeps the representation invariant, for every buffer. -/
theorem wellFormed_addBufferMappings {c c' : MappingContainer} (hc : WellFormed c)
    {map : SourceMapSchema.Map} {lo co : Int}
    (h : addBufferMappings c map lo co = some c') : WellFormed c' := by
  obtain ⟨c2, hc2, rfl⟩ := addBufferMappings_some h
  have h2 : WellFormed c2 := foldlM_option_invariant WellFormed _ _ _ c2
    (fun _ _ _ _ hs hstep => addBufferLine_wellFormed hs hstep)
    (wellFormed_createLines hc _) hc2
  exact wellFormed_pools h2 (poolAddAll_nodup _ _ h2.sources_nodup)
    (poolAddAll_nodup _ _ h2.names_nodup)

/-- The sorting done by `toBuffer` and `getMap` keeps the representation
invariant. -/
theorem wellFormed_toBuffer {c : MappingContainer} (hc : WellFormed c) :
    WellFormed (toBuffer c).2 ∧ WellFormed (getMap c).2 :=
  ⟨wellFormed_sort hc, wellFormed_sort hc⟩

end SourceMapBinding

end SourceMap
